import Mathlib

/-!
Verification of the cross-venue arbitrage engine.

Shallow embedding of the arbitrage calculator (src/unnamed/part_007,
`calculator.ts`), the arbitrage detector (`detector.ts`), the trade
executor (`executor.ts`), the venue websocket client (`opinionClient.ts`),
the market matcher (`marketMatcher.ts`) and the similarity module
(`similarity.ts`).  Prices and sizes are modelled as rationals; the
JavaScript doubles never matter for the algebraic structure of the claims.
-/

namespace Arb

/-- One order-book level `(price, size)`. -/
structure OrderLevel where
  price : ℚ
  size : ℚ
deriving Repr, DecidableEq

/-- An order book: lists of bids and asks (`Orderbook` in `arbitrage/types.ts`). -/
structure Orderbook where
  bids : List OrderLevel
  asks : List OrderLevel
deriving Repr, DecidableEq

/-- Which side of the book an operation works on. -/
inductive Side where
  | bid
  | ask
deriving Repr, DecidableEq

/-- A binary-market outcome. -/
inductive Outcome where
  | yes
  | no
deriving Repr, DecidableEq

/-- `extractBestPrice` from `calculator.ts`: the highest bid price or the
lowest ask price, `null` on an empty side (`Math.max`/`Math.min` over the
mapped price list). -/
def extractBestPrice (orderbook : Orderbook) (side : Side) : Option ℚ :=
  match side with
  | .bid =>
    match orderbook.bids.map (fun b => b.price) with
    | [] => none
    | p :: ps => some (ps.foldl max p)
  | .ask =>
    match orderbook.asks.map (fun a => a.price) with
    | [] => none
    | p :: ps => some (ps.foldl min p)

/-- `calculateLiquidity` from `calculator.ts`: sum of sizes on one side,
optionally restricted by `maxPrice` (bids at or above it, asks at or
below it). -/
def calculateLiquidity (orderbook : Orderbook) (side : Side) (maxPrice : Option ℚ) : ℚ :=
  match side with
  | .bid =>
    let relevantBids : List OrderLevel :=
      match maxPrice with
      | some mp => orderbook.bids.filter (fun b => mp ≤ b.price)
      | none => orderbook.bids
    relevantBids.foldl (fun sum b => sum + b.size) 0
  | .ask =>
    let relevantAsks : List OrderLevel :=
      match maxPrice with
      | some mp => orderbook.asks.filter (fun a => a.price ≤ mp)
      | none => orderbook.asks
    relevantAsks.foldl (fun sum a => sum + a.size) 0

/-- Result record of `extractMarketPrices`. -/
structure PriceLiquidity where
  price : ℚ
  liquidity : ℚ
deriving Repr, DecidableEq

/-- `extractMarketPrices` from `calculator.ts`.  The source takes an
`outcome: 'yes' | 'no'` argument; as in the source, the body never uses
it: the returned price is the mid of best bid and best ask and the
liquidity is bid depth plus ask depth, for either outcome. -/
def extractMarketPrices (orderbook : Orderbook) (outcome : Outcome) : Option PriceLiquidity :=
  match extractBestPrice orderbook .bid, extractBestPrice orderbook .ask with
  | some bestBid, some bestAsk =>
    some { price := (bestBid + bestAsk) / 2
           liquidity := calculateLiquidity orderbook .bid none
                        + calculateLiquidity orderbook .ask none }
  | _, _ => none

/-- `MarketPrices` from `arbitrage/types.ts`. -/
structure MarketPrices where
  marketId : String
  yesPrice : ℚ
  noPrice : ℚ
  yesLiquidity : ℚ
  noLiquidity : ℚ
  timestamp : ℤ
deriving Repr, DecidableEq

/-- `ArbitrageCalculation` from `arbitrage/types.ts`. -/
structure ArbitrageCalculation where
  combinedCost : ℚ
  profitPotential : ℚ
  opinionSide : Outcome
  polymarketSide : Outcome
  recommendedSize : ℚ
  estimatedFees : ℚ
  netProfit : ℚ
deriving Repr, DecidableEq

/-- `OPINION_FEE_RATE` constant from `calculator.ts` (2%). -/
def opinionFeeRate : ℚ := 2 / 100

/-- `POLYMARKET_FEE_RATE` constant from `calculator.ts` (2%). -/
def polymarketFeeRate : ℚ := 2 / 100

/-- The arbitrage-relevant configuration snapshot (`config.arbitrage`). -/
structure ArbConfig where
  threshold : ℚ
  minLiquidity : ℚ
  maxPositionSize : ℚ
deriving Repr, DecidableEq

/-- `calculateArbitrage` from `calculator.ts`, line for line: choose the
cheaper of the two legs, reject when the combined cost reaches the
threshold, size by the chosen-side liquidities capped by
`maxPositionSize`, reject under `minLiquidity`, reject non-positive net
profit after the two 2% fees. -/
def calculateArbitrage (cfg : ArbConfig) (opinionPrices polymarketPrices : MarketPrices) :
    Option ArbitrageCalculation :=
  let path1Cost := opinionPrices.yesPrice + polymarketPrices.noPrice
  let path2Cost := opinionPrices.noPrice + polymarketPrices.yesPrice
  let bestPath : ℕ := if path1Cost < path2Cost then 1 else 2
  let combinedCost := if bestPath = 1 then path1Cost else path2Cost
  if cfg.threshold ≤ combinedCost then
    none
  else
    let profitPotential := 1 - combinedCost
    let opinionSide : Outcome := if bestPath = 1 then .yes else .no
    let polymarketSide : Outcome := if bestPath = 1 then .no else .yes
    let opinionLiquidity :=
      if opinionSide = .yes then opinionPrices.yesLiquidity else opinionPrices.noLiquidity
    let polymarketLiquidity :=
      if polymarketSide = .yes then polymarketPrices.yesLiquidity else polymarketPrices.noLiquidity
    let recommendedSize := min (min opinionLiquidity polymarketLiquidity) cfg.maxPositionSize
    if recommendedSize < cfg.minLiquidity then
      none
    else
      let opinionFee := recommendedSize * opinionFeeRate
      let polymarketFee := recommendedSize * polymarketFeeRate
      let estimatedFees := opinionFee + polymarketFee
      let grossProfit := recommendedSize * profitPotential
      let netProfit := grossProfit - estimatedFees
      if netProfit ≤ 0 then
        none
      else
        some { combinedCost := combinedCost
               profitPotential := profitPotential
               opinionSide := opinionSide
               polymarketSide := polymarketSide
               recommendedSize := recommendedSize
               estimatedFees := estimatedFees
               netProfit := netProfit }

/-- The per-venue `MarketPrices` record assembled by
`ArbitrageDetector.checkArbitrage` (detector.ts lines 106-164): the yes
and the no price both come from `extractMarketPrices` on the same book. -/
def detectorMarketPrices (marketId : String) (orderbook : Orderbook) (now : ℤ) :
    Option MarketPrices :=
  match extractMarketPrices orderbook .yes, extractMarketPrices orderbook .no with
  | some yesSide, some noSide =>
    some { marketId := marketId
           yesPrice := yesSide.price
           noPrice := noSide.price
           yesLiquidity := yesSide.liquidity
           noLiquidity := noSide.liquidity
           timestamp := now }
  | _, _ => none

/-- Spec-side combined cost: the cheaper of the two leg costs. -/
def specCombinedCost (op pm : MarketPrices) : ℚ :=
  min (op.yesPrice + pm.noPrice) (op.noPrice + pm.yesPrice)

/-- Spec-side chosen opinion-side liquidity (yes-liquidity when leg 1 is
strictly cheaper, matching the tie-break of the source). -/
def specOpinionLiquidity (op pm : MarketPrices) : ℚ :=
  if op.yesPrice + pm.noPrice < op.noPrice + pm.yesPrice then op.yesLiquidity else op.noLiquidity

/-- Spec-side chosen polymarket-side liquidity. -/
def specPolymarketLiquidity (op pm : MarketPrices) : ℚ :=
  if op.yesPrice + pm.noPrice < op.noPrice + pm.yesPrice then pm.noLiquidity else pm.yesLiquidity

/-- Spec-side recommended size: minimum of the two chosen-side
liquidities and the position cap. -/
def specRecommendedSize (cfg : ArbConfig) (op pm : MarketPrices) : ℚ :=
  min (min (specOpinionLiquidity op pm) (specPolymarketLiquidity op pm)) cfg.maxPositionSize

/-- Spec-side net profit: size times profit potential minus size times
the two fee rates. -/
def specNetProfit (cfg : ArbConfig) (op pm : MarketPrices) : ℚ :=
  specRecommendedSize cfg op pm * (1 - specCombinedCost op pm)
    - specRecommendedSize cfg op pm * (opinionFeeRate + polymarketFeeRate)

/-- Configuration of end-to-end scenario S1 of the spec. -/
def cfgS1 : ArbConfig := { threshold := 98/100, minLiquidity := 1000, maxPositionSize := 5000 }

/-- Venue A market prices of scenario S1 (mid 0.45, depth 2000). -/
def opS1 : MarketPrices :=
  { marketId := "A1", yesPrice := 9/20, noPrice := 9/20
    yesLiquidity := 2000, noLiquidity := 2000, timestamp := 0 }

/-- Venue B market prices of scenario S1 (mid 0.50, depth 3000). -/
def pmS1 : MarketPrices :=
  { marketId := "B1", yesPrice := 1/2, noPrice := 1/2
    yesLiquidity := 3000, noLiquidity := 3000, timestamp := 0 }

/-- Venue A book of scenario S1: best bid 0.44, best ask 0.46, depth 2000. -/
def bookS1A : Orderbook :=
  { bids := [{ price := 11/25, size := 1000 }], asks := [{ price := 23/50, size := 1000 }] }

/-- Venue B book of scenario S1: best bid 0.49, best ask 0.51, depth 3000. -/
def bookS1B : Orderbook :=
  { bids := [{ price := 49/100, size := 1500 }], asks := [{ price := 51/100, size := 1500 }] }

end Arb

namespace Exec

/-- Venue identifier (`platform` in the source). -/
inductive Platform where
  | opinion
  | polymarket
deriving Repr, DecidableEq

/-- Parameters of one `place_order` call (`PlaceOrderParams`, side is
always `buy` in `executeArbitrage`). -/
structure PlaceOrderParams where
  marketId : String
  outcome : Arb.Outcome
  amount : ℚ
  price : ℚ
deriving Repr, DecidableEq

/-- Settled outcome of one `place_order` promise. -/
inductive OrderOutcome where
  | fulfilled (orderId : String)
  | rejected (reason : String)
deriving Repr, DecidableEq

/-- Opportunity lifecycle status. -/
inductive OppStatus where
  | detected
  | executing
  | executed
  | expired
deriving Repr, DecidableEq

/-- Events emitted by the executor. -/
inductive ExecEvent where
  | executionSuccess
  | executionFailed
deriving Repr, DecidableEq

/-- `TradingError` codes thrown by `executeArbitrage`. -/
inductive ExecError where
  | duplicateExecution
  | sizeLimitExceeded
  | executionFailed
deriving Repr, DecidableEq

/-- Return-or-throw outcome of one `executeArbitrage` call. -/
inductive ExecResult where
  | ok
  | thrown (code : ExecError)
deriving Repr, DecidableEq

/-- The fields of an `ArbitrageOpportunity` that `executeArbitrage` reads. -/
structure ExecOpportunity where
  id : String
  opinionMarketId : String
  polymarketMarketId : String
  combinedCost : ℚ
  opinionYesPrice : ℚ
  opinionNoPrice : ℚ
  polymarketYesPrice : ℚ
  polymarketNoPrice : ℚ
  recommendedSize : ℚ
deriving Repr, DecidableEq

/-- One persisted trade row created on double success. -/
structure TradeRow where
  platform : Platform
  marketId : String
  side : Arb.Outcome
  amount : ℚ
  price : ℚ
  orderId : String
deriving Repr, DecidableEq

/-- Observable effects of one `executeArbitrage` call: orders placed,
cancels issued, cancel failures recorded, status updates in issue order,
trade rows created, events emitted, and the returned or thrown result. -/
structure ExecEffects where
  placed : List PlaceOrderParams
  cancels : List String
  cancelFailures : List String
  statusUpdates : List OppStatus
  trades : List TradeRow
  events : List ExecEvent
  result : ExecResult
deriving Repr, DecidableEq

/-- `TradeExecutor.executeArbitrage` from `executor.ts` as an effect
function.  The settled outcome of each `place_order` promise and the
success of each compensating `cancel_order` are inputs; `inFlight` tells
whether the opportunity id is already in the executing set.  The catch
block re-issues the `expired` status update before rethrowing, which is
why failing paths record it twice. -/
def executeArbitrage (maxPositionSize : ℚ) (inFlight : Bool) (opp : ExecOpportunity)
    (opinionOrder polymarketOrder : OrderOutcome)
    (cancelOpinionOk cancelPolymarketOk : Bool) : ExecEffects :=
  if inFlight then
    { placed := [], cancels := [], cancelFailures := [], statusUpdates := []
      trades := [], events := [], result := .thrown .duplicateExecution }
  else
    let opinionSide : Arb.Outcome := if opp.combinedCost < 98/100 then .yes else .no
    let polymarketSide : Arb.Outcome := if opp.combinedCost < 98/100 then .no else .yes
    let opinionPrice := if opinionSide = .yes then opp.opinionYesPrice else opp.opinionNoPrice
    let polymarketPrice :=
      if polymarketSide = .yes then opp.polymarketYesPrice else opp.polymarketNoPrice
    if maxPositionSize < opp.recommendedSize then
      { placed := [], cancels := [], cancelFailures := []
        statusUpdates := [.executing, .expired]
        trades := [], events := [], result := .thrown .sizeLimitExceeded }
    else
      let opinionCall : PlaceOrderParams :=
        { marketId := opp.opinionMarketId, outcome := opinionSide
          amount := opp.recommendedSize, price := opinionPrice }
      let polymarketCall : PlaceOrderParams :=
        { marketId := opp.polymarketMarketId, outcome := polymarketSide
          amount := opp.recommendedSize, price := polymarketPrice }
      match opinionOrder, polymarketOrder with
      | .fulfilled opinionId, .fulfilled polymarketId =>
        { placed := [opinionCall, polymarketCall], cancels := [], cancelFailures := []
          statusUpdates := [.executing, .executed]
          trades :=
            [ { platform := .opinion, marketId := opp.opinionMarketId, side := opinionSide
                amount := opp.recommendedSize, price := opinionPrice, orderId := opinionId }
            , { platform := .polymarket, marketId := opp.polymarketMarketId
                side := polymarketSide, amount := opp.recommendedSize
                price := polymarketPrice, orderId := polymarketId } ]
          events := [.executionSuccess], result := .ok }
      | .fulfilled opinionId, .rejected _ =>
        { placed := [opinionCall, polymarketCall]
          cancels := [opinionId]
          cancelFailures := if cancelOpinionOk then [] else [opinionId]
          statusUpdates := [.executing, .expired, .expired]
          trades := [], events := [.executionFailed], result := .thrown .executionFailed }
      | .rejected _, .fulfilled polymarketId =>
        { placed := [opinionCall, polymarketCall]
          cancels := [polymarketId]
          cancelFailures := if cancelPolymarketOk then [] else [polymarketId]
          statusUpdates := [.executing, .expired, .expired]
          trades := [], events := [.executionFailed], result := .thrown .executionFailed }
      | .rejected _, .rejected _ =>
        { placed := [opinionCall, polymarketCall], cancels := [], cancelFailures := []
          statusUpdates := [.executing, .expired, .expired]
          trades := [], events := [.executionFailed], result := .thrown .executionFailed }

/-- The S1 opportunity as seen by the executor. -/
def oppS1 : ExecOpportunity :=
  { id := "opp1", opinionMarketId := "A1", polymarketMarketId := "B1"
    combinedCost := 19/20, opinionYesPrice := 9/20, opinionNoPrice := 9/20
    polymarketYesPrice := 1/2, polymarketNoPrice := 1/2, recommendedSize := 2000 }

/-- An opportunity carrying an out-of-range captured price, reachable
because no component validates the price range. -/
def oppBadPrice : ExecOpportunity :=
  { id := "opp2", opinionMarketId := "A1", polymarketMarketId := "B1"
    combinedCost := 9/10, opinionYesPrice := 3/2, opinionNoPrice := 9/20
    polymarketYesPrice := 1/2, polymarketNoPrice := 2/5, recommendedSize := 100 }

end Exec

namespace WS

/-- State of the venue websocket client that `subscribeToMarket`,
`resubscribe` and the `open` handler read: whether the stream is open
(`isConnected && ws.readyState === OPEN` in the source, a single flag
here) and the set of subscribed market ids, kept in insertion order as
the JavaScript `Set` does. -/
structure OpinionClient where
  connected : Bool
  subscribedMarkets : List String
deriving Repr, DecidableEq

/-- A `{type: "subscribe", topic: "orderbook", market_id}` frame sent to
the venue. -/
structure SubscribeMsg where
  marketId : String
deriving Repr, DecidableEq

/-- `OpinionWebSocketClient.subscribeToMarket`: drop the call when the
stream is not open; drop it when the id is already subscribed; otherwise
send one subscribe frame and add the id to the set. -/
def subscribeToMarket (c : OpinionClient) (marketId : String) :
    OpinionClient × List SubscribeMsg :=
  if ¬ c.connected then
    (c, [])
  else if marketId ∈ c.subscribedMarkets then
    (c, [])
  else
    ({ c with subscribedMarkets := c.subscribedMarkets ++ [marketId] }, [{ marketId := marketId }])

/-- Helper folding `subscribeToMarket` over a list of ids, accumulating
sent frames. -/
def subscribeAll (c : OpinionClient) : List String → OpinionClient × List SubscribeMsg
  | [] => (c, [])
  | m :: ms =>
    let r := subscribeToMarket c m
    let rest := subscribeAll r.1 ms
    (rest.1, r.2 ++ rest.2)

/-- `OpinionWebSocketClient.resubscribe`: call `subscribeToMarket` for
every id currently in the subscribed set. -/
def resubscribe (c : OpinionClient) : OpinionClient × List SubscribeMsg :=
  subscribeAll c c.subscribedMarkets

/-- The `open` handler of `connect()`: set the connected flag, then
resubscribe (heartbeat and event emission carry no subscription state). -/
def onOpen (c : OpinionClient) : OpinionClient × List SubscribeMsg :=
  resubscribe { c with connected := true }

end WS

namespace Detect

/-- The fused per-canonical-market state (`MarketOrderbooks` in
`detector.ts`): the latest book per venue, if any. -/
structure MarketOrderbooks where
  opinion : Option Arb.Orderbook
  polymarket : Option Arb.Orderbook
deriving Repr, DecidableEq

/-- The venue an order-book update comes from. -/
inductive Venue where
  | opinion
  | polymarket
deriving Repr, DecidableEq

/-- One order-book update reaching the detector, with the wall-clock time
at which it is processed. -/
structure BookUpdate where
  venue : Venue
  book : Arb.Orderbook
  time : ℤ
deriving Repr, DecidableEq

/-- One emitted opportunity, reduced to the fields claim C5 talks about. -/
structure Emission where
  time : ℤ
  combinedCost : ℚ
deriving Repr, DecidableEq

/-- Store the newest book on the side of the incoming update
(`handleOpinionOrderbook` / `handlePolymarketOrderbook`). -/
def updateBooks (s : MarketOrderbooks) (u : BookUpdate) : MarketOrderbooks :=
  match u.venue with
  | .opinion => { s with opinion := some u.book }
  | .polymarket => { s with polymarket := some u.book }

/-- The evaluation part of `ArbitrageDetector.checkArbitrage`: with both
books present, extract both venue price records and run
`Arb.calculateArbitrage`; otherwise no result. -/
def evaluateBooks (cfg : Arb.ArbConfig) (opinionId polymarketId : String) (now : ℤ)
    (s : MarketOrderbooks) : Option Arb.ArbitrageCalculation :=
  match s.opinion, s.polymarket with
  | some bookA, some bookB =>
    match Arb.detectorMarketPrices opinionId bookA now, Arb.detectorMarketPrices polymarketId bookB now with
    | some pa, some pb => Arb.calculateArbitrage cfg pa pb
    | _, _ => none
  | _, _ => none

/-- One detector step: store the update, evaluate, and emit an
opportunity whenever the evaluation yields a calculation — the source
keeps no record of previous emissions. -/
def detectorStep (cfg : Arb.ArbConfig) (opinionId polymarketId : String)
    (s : MarketOrderbooks) (u : BookUpdate) : MarketOrderbooks × Option Emission :=
  match evaluateBooks cfg opinionId polymarketId u.time (updateBooks s u) with
  | some r => (updateBooks s u, some { time := u.time, combinedCost := r.combinedCost })
  | none => (updateBooks s u, none)

/-- The emission sequence of the detector over a sequence of updates for
one canonical market. -/
def detectorRun (cfg : Arb.ArbConfig) (opinionId polymarketId : String)
    (s : MarketOrderbooks) : List BookUpdate → List Emission
  | [] => []
  | u :: us =>
    let r := detectorStep cfg opinionId polymarketId s u
    r.2.toList ++ detectorRun cfg opinionId polymarketId r.1 us

/-- The fused state after processing a sequence of updates. -/
def detectorFinal (cfg : Arb.ArbConfig) (opinionId polymarketId : String)
    (s : MarketOrderbooks) (us : List BookUpdate) : MarketOrderbooks :=
  us.foldl (fun st u => (detectorStep cfg opinionId polymarketId st u).1) s

/-- The default arbitrage configuration (threshold 0.98, minimum
liquidity 1000, position cap 10000). -/
def cfgDefault : Arb.ArbConfig := { threshold := 98/100, minLiquidity := 1000, maxPositionSize := 10000 }

end Detect

namespace Match

/-- A normalized market (`NormalizedMarket` in `matching/types.ts`)
reduced to the fields the similarity and matching code reads: the venue
id, the normalized title (a character list), the token list, the
extracted dates as epoch milliseconds, and the original title kept for
persistence. -/
structure NormalizedMarket where
  id : String
  normalizedTitle : List Char
  tokens : List String
  dates : List ℤ
  title : String
deriving Repr, DecidableEq

/-- Standard Levenshtein edit distance, the function computed by the
`fast-levenshtein` dependency used in `similarity.ts`. -/
def levenshtein : List Char → List Char → ℕ
  | [], ys => ys.length
  | x :: xs, [] => (x :: xs).length
  | x :: xs, y :: ys =>
    if x = y then levenshtein xs ys
    else 1 + min (levenshtein xs ys) (min (levenshtein xs (y :: ys)) (levenshtein (x :: xs) ys))
termination_by xs ys => xs.length + ys.length
decreasing_by all_goals simp_arith

/-- `calculateLevenshteinSimilarity`: one minus distance over the longer
length, and 1 for two empty strings. -/
def calculateLevenshteinSimilarity (str1 str2 : List Char) : ℚ :=
  let maxLen := max str1.length str2.length
  if maxLen = 0 then 1 else 1 - (levenshtein str1 str2 : ℚ) / (maxLen : ℚ)

/-- `getCommonPrefixLength`: length of the common prefix, capped. -/
def getCommonPrefixLength : List Char → List Char → ℕ → ℕ
  | x :: xs, y :: ys, m + 1 => if x = y then 1 + getCommonPrefixLength xs ys m else 0
  | _, _, _ => 0

/-- The match-window test of the Jaro loop: candidate `j` lies between
`i - w` and `i + w` (the loop bounds `max(0, i - w)` and
`min(i + w + 1, len)` of the source). -/
def inWindow (w : ℤ) (i j : ℕ) : Bool :=
  decide ((i : ℤ) - w ≤ (j : ℤ)) && decide ((j : ℤ) ≤ (i : ℤ) + w)

/-- The candidate search of the Jaro match loop: the first index `j` of
`str2` inside the window around `i` that is not yet matched and carries
the same character as `str1[i]`. -/
def findMatchIndex (s1 s2 : List Char) (w : ℤ) (used : List ℕ) (i : ℕ) : Option ℕ :=
  ((List.range s2.length).filter (fun (j : ℕ) => inWindow w i j)).find?
    (fun (j : ℕ) => decide (j ∉ used) && decide (s1.get? i = s2.get? j))

/-- The Jaro match loop: for each index of `str1` in order, claim the
first available window candidate; `used` holds the already matched
indices of `str2` (`str2Matches` in the source). -/
def jaroPairsAux (s1 s2 : List Char) (w : ℤ) : List ℕ → List ℕ → List (ℕ × ℕ)
  | [], _ => []
  | i :: is, used =>
    match findMatchIndex s1 s2 w used i with
    | some j => (i, j) :: jaroPairsAux s1 s2 w is (j :: used)
    | none => jaroPairsAux s1 s2 w is used

/-- The matched index pairs of the Jaro computation, in increasing order
of the `str1` index. -/
def jaroPairs (s1 s2 : List Char) : List (ℕ × ℕ) :=
  jaroPairsAux s1 s2 ((max s1.length s2.length : ℤ) / 2 - 1) (List.range s1.length) []

/-- The ascending order in which the transposition loop scans the
matched `str2` indices (`while (!str2Matches[k]) k++`). -/
def sortAsc (l : List ℕ) : List ℕ := List.insertionSort (· ≤ ·) l

/-- `calculateJaroSimilarity` from `similarity.ts`: 1 on equal strings, 0
when either is empty or no character matches, otherwise the mean of the
two match ratios and the transposition-corrected ratio.  The matched
`str1` indices are scanned in loop order (ascending) and the matched
`str2` indices in ascending order, as the `str2Matches` scan does. -/
def calculateJaroSimilarity (s1 s2 : List Char) : ℚ :=
  if s1 = s2 then 1
  else if s1.length = 0 ∨ s2.length = 0 then 0
  else
    let pairs := jaroPairs s1 s2
    let matchCount := pairs.length
    if matchCount = 0 then 0
    else
      let is := pairs.map (fun p => p.1)
      let js := sortAsc (pairs.map (fun p => p.2))
      let transpositions :=
        ((is.zip js).filter (fun p => decide (s1.get? p.1 ≠ s2.get? p.2))).length
      ((matchCount : ℚ) / (s1.length : ℚ) + (matchCount : ℚ) / (s2.length : ℚ)
        + ((matchCount : ℚ) - (transpositions : ℚ) / 2) / (matchCount : ℚ)) / 3

/-- `calculateJaroWinklerSimilarity`: Jaro plus a prefix boost of factor
0.1 over at most the first 4 characters. -/
def calculateJaroWinklerSimilarity (s1 s2 : List Char) : ℚ :=
  let jaro := calculateJaroSimilarity s1 s2
  let prefixLength := getCommonPrefixLength s1 s2 4
  jaro + (1/10) * (prefixLength : ℚ) * (1 - jaro)

/-- `calculateTokenOverlap`: Jaccard overlap of the two token sets, 0
when the union is empty (the JavaScript `Set` collapses duplicates). -/
def calculateTokenOverlap (tokens1 tokens2 : List String) : ℚ :=
  let set1 := tokens1.toFinset
  let set2 := tokens2.toFinset
  let intersection := set1 ∩ set2
  let union := set1 ∪ set2
  if 0 < union.card then (intersection.card : ℚ) / (union.card : ℚ) else 0

/-- `calculateDateSimilarity`: 1 when both date lists are empty, 0.5 when
exactly one is, 1 when some pair of dates lies within 24 hours, else 0. -/
def calculateDateSimilarity (dates1 dates2 : List ℤ) : ℚ :=
  if dates1 = [] ∧ dates2 = [] then 1
  else if dates1 = [] ∨ dates2 = [] then 1/2
  else if dates1.any (fun d1 => dates2.any
      (fun d2 => decide ((|d1 - d2| : ℚ) / (1000 * 60 * 60 * 24) ≤ 1))) then 1
  else 0

/-- `calculateSimilarity` from `similarity.ts`: the clamped weighted sum
of the four component scores. -/
def calculateSimilarity (market1 market2 : NormalizedMarket) : ℚ :=
  let levenshteinScore :=
    calculateLevenshteinSimilarity market1.normalizedTitle market2.normalizedTitle
  let jaroWinklerScore :=
    calculateJaroWinklerSimilarity market1.normalizedTitle market2.normalizedTitle
  let tokenOverlapScore := calculateTokenOverlap market1.tokens market2.tokens
  let dateSimilarityScore := calculateDateSimilarity market1.dates market2.dates
  let totalScore := levenshteinScore * (2/10) + jaroWinklerScore * (3/10)
    + tokenOverlapScore * (3/10) + dateSimilarityScore * (2/10)
  min 1 (max 0 totalScore)

/-- A market whose tokens all fell to the length and digit filters: the
token list is empty. -/
def marketNoTokens : NormalizedMarket :=
  { id := "m0", normalizedTitle := ['a', 'b'], tokens := [], dates := [], title := "ab" }

/-- The similarity threshold hardcoded in `MarketMatcher` (0.85). -/
def similarityThreshold : ℚ := 85/100

/-- One produced match (`MarketMatch` in `matching/types.ts`), carrying
the fields `saveMatches` persists. -/
structure MarketMatch where
  canonicalId : String
  opinionId : String
  opinionTitle : String
  polymarketId : String
  polymarketTitle : String
  similarityScore : ℚ
deriving Repr, DecidableEq

/-- Replace every run of whitespace with a single dash
(`.replace(/\s+/g, '-')`). -/
def replaceWs : List Char → List Char
  | [] => []
  | c :: cs =>
    if c.isWhitespace then '-' :: replaceWs (cs.dropWhile Char.isWhitespace)
    else c :: replaceWs cs
termination_by l => l.length
decreasing_by
  · simpa using Nat.lt_succ_of_le (List.dropWhile_sublist _).length_le
  · simp

/-- `MarketMatcher.generateCanonicalId`: dash-join the shorter normalized
title, truncate to 50 characters, lowercase, and suffix the wall-clock
time. -/
def generateCanonicalId (market1 market2 : NormalizedMarket) (now : ℤ) : String :=
  let baseTitle := if market1.normalizedTitle.length < market2.normalizedTitle.length
    then market1.normalizedTitle else market2.normalizedTitle
  let hash := ((replaceWs baseTitle).take 50).map Char.toLower
  "market-" ++ String.mk hash ++ "-" ++ toString now

/-- One step of the inner candidate scan of `MarketMatcher.matchMarkets`:
skip an already matched venue B market, otherwise take the candidate when
it scores at least the threshold and strictly beats the current best. -/
def bestCandidateStep (opinionMarket : NormalizedMarket) (matchedIds : List String)
    (best : Option (NormalizedMarket × ℚ)) (pm : NormalizedMarket) :
    Option (NormalizedMarket × ℚ) :=
  if pm.id ∈ matchedIds then best
  else
    let similarity := calculateSimilarity opinionMarket pm
    if similarityThreshold ≤ similarity then
      match best with
      | none => some (pm, similarity)
      | some b => if b.2 < similarity then some (pm, similarity) else best
    else best

/-- The inner candidate loop over all venue B markets. -/
def bestCandidateLoop (opinionMarket : NormalizedMarket) (matchedIds : List String) :
    List NormalizedMarket → Option (NormalizedMarket × ℚ) → Option (NormalizedMarket × ℚ)
  | [], best => best
  | pm :: pms, best =>
    bestCandidateLoop opinionMarket matchedIds pms
      (bestCandidateStep opinionMarket matchedIds best pm)

/-- The inner candidate scan of `MarketMatcher.matchMarkets`: skip
already matched venue B markets, keep the first maximum among candidates
scoring at least the threshold. -/
def bestCandidate (opinionMarket : NormalizedMarket)
    (polymarketMarkets : List NormalizedMarket) (matchedIds : List String) :
    Option (NormalizedMarket × ℚ) :=
  bestCandidateLoop opinionMarket matchedIds polymarketMarkets none

/-- The outer loop of `MarketMatcher.matchMarkets`, carrying the
`matchedPolymarketIds` set. -/
def matchMarketsAux (polymarketMarkets : List NormalizedMarket) (now : ℤ) :
    List NormalizedMarket → List String → List MarketMatch
  | [], _ => []
  | om :: oms, matchedIds =>
    match bestCandidate om polymarketMarkets matchedIds with
    | some best =>
      { canonicalId := generateCanonicalId om best.1 now
        opinionId := om.id
        opinionTitle := om.title
        polymarketId := best.1.id
        polymarketTitle := best.1.title
        similarityScore := best.2 }
        :: matchMarketsAux polymarketMarkets now oms (best.1.id :: matchedIds)
    | none => matchMarketsAux polymarketMarkets now oms matchedIds

/-- `MarketMatcher.matchMarkets` on normalized listings (the source
normalizes first, then runs this greedy one-to-one matching). -/
def matchMarkets (opinionMarkets polymarketMarkets : List NormalizedMarket) (now : ℤ) :
    List MarketMatch :=
  matchMarketsAux polymarketMarkets now opinionMarkets []

/-- One persisted `market_mappings` row. -/
structure MarketMapping where
  canonical_market_id : String
  opinion_market_id : Option String
  polymarket_market_id : Option String
  market_title : String
  similarity_score : Option ℚ
deriving Repr, DecidableEq

/-- `MarketMappingModel.findByCanonicalId` over the table modelled as a
row list. -/
def findByCanonicalId (db : List MarketMapping) (canonicalId : String) :
    Option MarketMapping :=
  db.find? (fun r => r.canonical_market_id = canonicalId)

/-- `MarketMatcher.saveMatches`: per match, update the row with the same
canonical id when one exists, otherwise insert a new row. -/
def saveMatches (db : List MarketMapping) (ms : List MarketMatch) :
    List MarketMapping :=
  ms.foldl
    (fun acc m =>
      match findByCanonicalId acc m.canonicalId with
      | some _ =>
        acc.map (fun r =>
          if r.canonical_market_id = m.canonicalId then
            { r with opinion_market_id := some m.opinionId
                     polymarket_market_id := some m.polymarketId
                     similarity_score := some m.similarityScore }
          else r)
      | none =>
        acc ++ [{ canonical_market_id := m.canonicalId
                  opinion_market_id := some m.opinionId
                  polymarket_market_id := some m.polymarketId
                  market_title := m.opinionTitle
                  similarity_score := some m.similarityScore }])
    db

/-- `MarketMatcher.syncMarkets`: match, then save. -/
def syncMarkets (db : List MarketMapping)
    (opinionMarkets polymarketMarkets : List NormalizedMarket) (now : ℤ) :
    List MarketMapping :=
  saveMatches db (matchMarkets opinionMarkets polymarketMarkets now)

/-- Venue A listing used in the C8 scenario. -/
def marketO : NormalizedMarket :=
  { id := "o1", normalizedTitle := ['b','t','c'], tokens := ["btc"], dates := [], title := "BTC" }

/-- Venue B listing used in the C8 scenario, identical wording. -/
def marketP : NormalizedMarket :=
  { id := "p1", normalizedTitle := ['b','t','c'], tokens := ["btc"], dates := [], title := "BTC" }

/-- The indices of `s` holding character `c`, in increasing order. -/
def posOf (s : List Char) (c : Char) : List ℕ :=
  (List.range s.length).filter (fun i => decide (s.get? i = some c))

/-- The greedy matching of the Jaro loop restricted to one character
class, with the matched candidate physically removed: for each left index
in order, claim the smallest remaining right index inside the window. -/
def grMatch (w : ℤ) : List ℕ → List ℕ → List (ℕ × ℕ)
  | [], _ => []
  | a :: as, bs =>
    match bs.find? (fun b => inWindow w a b) with
    | some b => (a, b) :: grMatch w as (bs.erase b)
    | none => grMatch w as bs

/-- The two-pointer formulation of the same matching: walk both sorted
index lists, matching when the heads are within the window and dropping
the head that lags behind otherwise. -/
def tpMatch (w : ℤ) : List ℕ → List ℕ → List (ℕ × ℕ)
  | a :: as, b :: bs =>
    if inWindow w a b then (a, b) :: tpMatch w as bs
    else if (b : ℤ) < (a : ℤ) - w then tpMatch w (a :: as) bs
    else tpMatch w as (b :: bs)
  | _, _ => []
termination_by as bs => as.length + bs.length

/-- The window width used by the Jaro computation. -/
def jaroWindowWidth (s1 s2 : List Char) : ℤ :=
  max (s1.length : ℤ) (s2.length : ℤ) / 2 - 1

end Match

namespace Arb

/-- Normal form of `calculateArbitrage`: the branch structure collapses to
three rejection tests over the spec-side quantities. -/
theorem calculateArbitrage_cases (cfg : ArbConfig) (op pm : MarketPrices) :
    calculateArbitrage cfg op pm =
      (if cfg.threshold ≤ specCombinedCost op pm then none
       else if specRecommendedSize cfg op pm < cfg.minLiquidity then none
       else if specRecommendedSize cfg op pm * (1 - specCombinedCost op pm)
              - (specRecommendedSize cfg op pm * opinionFeeRate
                 + specRecommendedSize cfg op pm * polymarketFeeRate) ≤ 0 then none
       else some
         { combinedCost := specCombinedCost op pm
           profitPotential := 1 - specCombinedCost op pm
           opinionSide := if op.yesPrice + pm.noPrice < op.noPrice + pm.yesPrice
             then .yes else .no
           polymarketSide := if op.yesPrice + pm.noPrice < op.noPrice + pm.yesPrice
             then .no else .yes
           recommendedSize := specRecommendedSize cfg op pm
           estimatedFees := specRecommendedSize cfg op pm * opinionFeeRate
             + specRecommendedSize cfg op pm * polymarketFeeRate
           netProfit := specRecommendedSize cfg op pm * (1 - specCombinedCost op pm)
             - (specRecommendedSize cfg op pm * opinionFeeRate
                + specRecommendedSize cfg op pm * polymarketFeeRate) }) := by
  unfold calculateArbitrage specRecommendedSize specCombinedCost
    specOpinionLiquidity specPolymarketLiquidity
  by_cases h : op.yesPrice + pm.noPrice < op.noPrice + pm.yesPrice
  · rw [min_eq_left h.le]
    simp [h]
  · rw [min_eq_right (le_of_not_lt h)]
    simp [h]

end Arb

open Arb in
/-- C1: In the detector evaluation, the YES price of a venue is the mid of
best bid and best ask, and the claim says the NO price equals one minus
that mid.  The code disagrees: `extractMarketPrices` ignores its outcome
argument, so on the book with best bid 0.44 and best ask 0.46 the NO
price extracted is 0.45, not 1 − 0.45 = 0.55. -/
theorem C1_no_price_is_mid_not_complement :
    extractMarketPrices
        { bids := [{ price := 11/25, size := 100 }]
          asks := [{ price := 23/50, size := 100 }] } Outcome.no
      = some { price := 9/20, liquidity := 200 } ∧
    (9/20 : ℚ) ≠ 1 - 9/20 := by
  constructor
  · simp only [extractMarketPrices, extractBestPrice, calculateLiquidity, List.map,
      List.foldl, Option.some.injEq, PriceLiquidity.mk.injEq]
    norm_num
  · norm_num

open Arb in
/-- C2: `calculateArbitrage` returns an opportunity iff the cheaper leg
cost is strictly below the threshold, the recommended size (min of the
chosen-side liquidities and the position cap) is at least the minimum
liquidity, and the net profit after fees is strictly positive; every
returned calculation carries `profitPotential = 1 − combinedCost` and a
recommended size that is positive (given a positive minimum-liquidity
configuration) and at most the position cap. -/
theorem C2_calculateArbitrage_spec (cfg : ArbConfig) (op pm : MarketPrices)
    (hmin : 0 < cfg.minLiquidity) :
    ((calculateArbitrage cfg op pm).isSome ↔
      (specCombinedCost op pm < cfg.threshold ∧
       cfg.minLiquidity ≤ specRecommendedSize cfg op pm ∧
       0 < specNetProfit cfg op pm)) ∧
    ∀ res, calculateArbitrage cfg op pm = some res →
      res.profitPotential = 1 - res.combinedCost ∧
      res.combinedCost = specCombinedCost op pm ∧
      res.recommendedSize = specRecommendedSize cfg op pm ∧
      0 < res.recommendedSize ∧ res.recommendedSize ≤ cfg.maxPositionSize := by
  have hbase := Arb.calculateArbitrage_cases cfg op pm
  have hnet : specNetProfit cfg op pm =
      specRecommendedSize cfg op pm * (1 - specCombinedCost op pm)
        - (specRecommendedSize cfg op pm * opinionFeeRate
           + specRecommendedSize cfg op pm * polymarketFeeRate) := by
    unfold specNetProfit; ring
  rw [hbase]
  split_ifs with h1 h2 h3
  · refine ⟨?_, by simp⟩
    simp only [Option.isSome_none, Bool.false_eq_true, false_iff]
    rintro ⟨hcost, hsize, hnetpos⟩
    linarith
  · refine ⟨?_, by simp⟩
    simp only [Option.isSome_none, Bool.false_eq_true, false_iff]
    rintro ⟨hcost, hsize, hnetpos⟩
    linarith
  · refine ⟨?_, by simp⟩
    simp only [Option.isSome_none, Bool.false_eq_true, false_iff]
    rintro ⟨hcost, hsize, hnetpos⟩
    rw [hnet] at hnetpos
    linarith
  all_goals constructor
  all_goals first
    | (simp only [Option.isSome_some, true_iff]
       exact ⟨not_le.mp h1, not_lt.mp h2, by rw [hnet]; exact not_le.mp h3⟩)
    | (intro res hres
       injection hres with hres
       subst hres
       refine ⟨rfl, rfl, rfl, ?_, ?_⟩
       · exact lt_of_lt_of_le hmin (not_lt.mp h2)
       · exact min_le_right _ _)

namespace Arb

/-- A successful `detectorMarketPrices` run has equal yes and no prices:
both come from the outcome-blind `extractMarketPrices`. -/
theorem detectorMarketPrices_yes_eq_no (marketId : String) (orderbook : Orderbook) (now : ℤ)
    (p : MarketPrices) (h : detectorMarketPrices marketId orderbook now = some p) :
    p.yesPrice = p.noPrice := by
  unfold detectorMarketPrices at h
  have hsame : extractMarketPrices orderbook Outcome.no
      = extractMarketPrices orderbook Outcome.yes := rfl
  rw [hsame] at h
  cases hx : extractMarketPrices orderbook Outcome.yes with
  | none => rw [hx] at h; exact absurd h (by simp)
  | some v =>
    rw [hx] at h
    injection h with h
    subst h
    rfl

end Arb

open Arb in
/-- Witness for C2 at the S1 scenario: the hypothesis `0 < minLiquidity`
holds at the concrete configuration and the iff yields an emitted
opportunity. -/
theorem C2_calculateArbitrage_spec_witness :
    0 < cfgS1.minLiquidity ∧ (calculateArbitrage cfgS1 opS1 pmS1).isSome := by
  refine ⟨by norm_num [cfgS1], ?_⟩
  refine ((C2_calculateArbitrage_spec cfgS1 opS1 pmS1 (by norm_num [cfgS1])).1).mpr ?_
  refine ⟨?_, ?_, ?_⟩ <;>
    norm_num [specCombinedCost, specRecommendedSize, specOpinionLiquidity,
      specPolymarketLiquidity, specNetProfit, opinionFeeRate, polymarketFeeRate,
      cfgS1, opS1, pmS1]

open Arb in
/-- C10: `extractMarketPrices` ignores its outcome argument, so any two
market-price records the detector assembles have equal yes and no prices,
and the two candidate leg costs in `calculateArbitrage` coincide. -/
theorem C10_extract_ignores_outcome :
    (∀ (orderbook : Orderbook) (o1 o2 : Outcome),
       extractMarketPrices orderbook o1 = extractMarketPrices orderbook o2) ∧
    (∀ (ida idb : String) (oa ob : Orderbook) (ta tb : ℤ) (pa pb : MarketPrices),
       detectorMarketPrices ida oa ta = some pa →
       detectorMarketPrices idb ob tb = some pb →
       pa.yesPrice + pb.noPrice = pa.noPrice + pb.yesPrice) := by
  constructor
  · intro orderbook o1 o2
    rfl
  · intro ida idb oa ob ta tb pa pb ha hb
    rw [detectorMarketPrices_yes_eq_no ida oa ta pa ha,
        detectorMarketPrices_yes_eq_no idb ob tb pb hb]

open Arb in
/-- Witness for C10 at the S1 books: both detector extractions succeed and
the two leg costs agree. -/
theorem C10_extract_ignores_outcome_witness :
    detectorMarketPrices "A1" bookS1A 0 = some opS1 ∧
    detectorMarketPrices "B1" bookS1B 0 = some pmS1 ∧
    opS1.yesPrice + pmS1.noPrice = opS1.noPrice + pmS1.yesPrice := by
  have ha : detectorMarketPrices "A1" bookS1A 0 = some opS1 := by
    simp only [detectorMarketPrices, extractMarketPrices, extractBestPrice, calculateLiquidity,
      bookS1A, List.map, List.foldl, Option.some.injEq, MarketPrices.mk.injEq, opS1]
    norm_num
  have hb : detectorMarketPrices "B1" bookS1B 0 = some pmS1 := by
    simp only [detectorMarketPrices, extractMarketPrices, extractBestPrice, calculateLiquidity,
      bookS1B, List.map, List.foldl, Option.some.injEq, MarketPrices.mk.injEq, pmS1]
    norm_num
  exact ⟨ha, hb, C10_extract_ignores_outcome.2 "A1" "B1" bookS1A bookS1B 0 0 opS1 pmS1 ha hb⟩

open Exec in
/-- C3: when exactly one leg of `executeArbitrage` succeeds, the executor
issues a best-effort cancel for the successful leg, records but does not
propagate a cancel failure, drives the opportunity status to `expired`,
emits `execution_failed` and throws `EXECUTION_FAILED`. -/
theorem C3_partial_failure_compensation (maxPositionSize : ℚ) (opp : ExecOpportunity)
    (oid pid reason : String) (cancelOk : Bool)
    (hsize : opp.recommendedSize ≤ maxPositionSize) :
    (let e := executeArbitrage maxPositionSize false opp
        (.fulfilled oid) (.rejected reason) cancelOk true
     e.cancels = [oid] ∧
     e.cancelFailures = (if cancelOk then [] else [oid]) ∧
     e.statusUpdates.getLast? = some .expired ∧
     e.events = [.executionFailed] ∧
     e.result = .thrown .executionFailed) ∧
    (let e := executeArbitrage maxPositionSize false opp
        (.rejected reason) (.fulfilled pid) true cancelOk
     e.cancels = [pid] ∧
     e.cancelFailures = (if cancelOk then [] else [pid]) ∧
     e.statusUpdates.getLast? = some .expired ∧
     e.events = [.executionFailed] ∧
     e.result = .thrown .executionFailed) := by
  have hns : ¬ (maxPositionSize < opp.recommendedSize) := not_lt.mpr hsize
  refine ⟨?_, ?_⟩ <;> simp [executeArbitrage, hns]

open Exec in
/-- Witness for C3: the S1 opportunity with venue A fulfilled and venue B
rejected yields a cancel of the venue A order. -/
theorem C3_partial_failure_compensation_witness :
    oppS1.recommendedSize ≤ 5000 ∧
    (executeArbitrage 5000 false oppS1
        (.fulfilled "OA1") (.rejected "boom") true true).cancels = ["OA1"] := by
  refine ⟨by norm_num [oppS1], ?_⟩
  exact (C3_partial_failure_compensation 5000 oppS1 "OA1" "OB1" "boom" true
    (by norm_num [oppS1])).1.1

open Exec in
/-- C4: the claim says the executor never places a leg with a price above
1 or below 0.  The code has no such guard: on an opportunity whose
captured opinion YES price is 1.5 it issues both `place_order` calls, the
first with price 1.5. -/
theorem C4_out_of_range_price_is_placed :
    ((executeArbitrage 10000 false oppBadPrice
        (.fulfilled "OA1") (.fulfilled "OB1") true true).placed.map
      (fun c => c.price)) = [3/2, 2/5] ∧ ¬ ((3/2 : ℚ) ≤ 1) := by
  constructor
  · norm_num [executeArbitrage, oppBadPrice]
    decide
  · norm_num

namespace WS

/-- Ids already subscribed are never re-sent: `subscribeToMarket` is a
no-op on each of them. -/
theorem subscribeAll_subset_noop (ms : List String) (c : OpinionClient)
    (h : ∀ m ∈ ms, m ∈ c.subscribedMarkets) : subscribeAll c ms = (c, []) := by
  induction ms with
  | nil => rfl
  | cons m ms ih =>
    have hm : m ∈ c.subscribedMarkets := h m (List.mem_cons_self m ms)
    have hstep : subscribeToMarket c m = (c, []) := by
      unfold subscribeToMarket
      by_cases hc : c.connected
      · simp [hc, hm]
      · simp [hc]
    have hrest : subscribeAll c ms = (c, []) :=
      ih fun x hx => h x (List.mem_cons_of_mem m hx)
    simp [subscribeAll, hstep, hrest]

end WS

open WS in
/-- C6: the claim says that after a reconnect the client re-issues one
subscribe frame per desired market id.  In the code every id is already
in `subscribedMarkets`, so each `subscribeToMarket` call inside
`resubscribe` returns at the already-subscribed guard: the `open` handler
sends no subscribe frame at all, for any client state. -/
theorem C6_resubscribe_sends_nothing (connected : Bool) (markets : List String) :
    onOpen { connected := connected, subscribedMarkets := markets }
      = ({ connected := true, subscribedMarkets := markets }, []) := by
  unfold onOpen resubscribe
  exact subscribeAll_subset_noop markets _ (fun m hm => hm)

open WS in
/-- Counterexample to C7: with the stream closed, `subscribeToMarket`
returns at the not-connected guard, so the id is not buffered into the
desired-subscription set — the call is lost. -/
theorem C7_subscribe_not_buffered_when_closed :
    subscribeToMarket { connected := false, subscribedMarkets := [] } "m1"
      = ({ connected := false, subscribedMarkets := [] }, []) ∧
    "m1" ∉ (subscribeToMarket
      { connected := false, subscribedMarkets := [] } "m1").1.subscribedMarkets := by
  constructor
  · rfl
  · decide

open WS in
/-- C7 amended: `subscribe` is idempotent — a repeated call leaves the
client state unchanged and sends nothing; with the stream open and a new
id it sends exactly one frame and records the id; but with the stream
closed the call is dropped without touching the desired-subscription set
(nothing is buffered). -/
theorem C7_subscribe_idempotent_dropped_when_closed :
    (∀ (c : OpinionClient) (m : String),
       subscribeToMarket (subscribeToMarket c m).1 m = ((subscribeToMarket c m).1, [])) ∧
    (∀ (c : OpinionClient) (m : String), c.connected = false →
       subscribeToMarket c m = (c, [])) ∧
    (∀ (c : OpinionClient) (m : String), c.connected = true → m ∉ c.subscribedMarkets →
       subscribeToMarket c m =
         ({ c with subscribedMarkets := c.subscribedMarkets ++ [m] },
          [{ marketId := m }])) := by
  refine ⟨?_, ?_, ?_⟩
  · intro c m
    unfold subscribeToMarket
    by_cases hc : c.connected
    · by_cases hm : m ∈ c.subscribedMarkets
      · simp [hc, hm]
      · simp [hc, hm]
    · simp [hc]
  · intro c m hc
    unfold subscribeToMarket
    simp [hc]
  · intro c m hc hm
    unfold subscribeToMarket
    simp [hc, hm]

open WS in
/-- Witness for C7 amended at concrete clients: a closed client drops the
call, an open client sends one frame and records the id. -/
theorem C7_subscribe_idempotent_dropped_when_closed_witness :
    (OpinionClient.mk false []).connected = false ∧
    subscribeToMarket (OpinionClient.mk false []) "m1" = (OpinionClient.mk false [], []) ∧
    (OpinionClient.mk true []).connected = true ∧
    "m1" ∉ (OpinionClient.mk true []).subscribedMarkets ∧
    subscribeToMarket (OpinionClient.mk true []) "m1"
      = (OpinionClient.mk true ["m1"], [{ marketId := "m1" }]) := by
  refine ⟨rfl, ?_, rfl, by decide, ?_⟩
  · exact C7_subscribe_idempotent_dropped_when_closed.2.1 _ "m1" rfl
  · exact C7_subscribe_idempotent_dropped_when_closed.2.2 _ "m1" rfl (by decide)

namespace Detect

/-- Unfolding lemma for `detectorRun` on a cons. -/
theorem detectorRun_cons (cfg : Arb.ArbConfig) (opinionId polymarketId : String)
    (s : MarketOrderbooks) (u : BookUpdate) (us : List BookUpdate) :
    detectorRun cfg opinionId polymarketId s (u :: us)
      = (detectorStep cfg opinionId polymarketId s u).2.toList
        ++ detectorRun cfg opinionId polymarketId
             (detectorStep cfg opinionId polymarketId s u).1 us := rfl

/-- The state component of a step is the stored update, whatever the
evaluation returns. -/
theorem detectorStep_fst (cfg : Arb.ArbConfig) (opinionId polymarketId : String)
    (s : MarketOrderbooks) (u : BookUpdate) :
    (detectorStep cfg opinionId polymarketId s u).1 = updateBooks s u := by
  unfold detectorStep
  cases h : evaluateBooks cfg opinionId polymarketId u.time (updateBooks s u) <;> simp [h]

end Detect

open Arb Detect in
/-- Counterexample to C5: two consecutive emissions for the same canonical
market, 100 ms apart, with identical combined cost 0.95 — the code keeps
no deduplication state, so the claimed suppression (more than 0.0005 cost
difference or more than 1 s apart) is violated. -/
theorem C5_duplicate_emissions_within_bounds :
    detectorRun cfgDefault "A1" "B1" { opinion := none, polymarket := none }
        [ { venue := .opinion, book := bookS1A, time := 0 }
        , { venue := .polymarket, book := bookS1B, time := 0 }
        , { venue := .polymarket, book := bookS1B, time := 100 } ]
      = [ { time := 0, combinedCost := 19/20 }, { time := 100, combinedCost := 19/20 } ] ∧
    ((100 : ℤ) - 0 ≤ 1000 ∧ |(19/20 : ℚ) - 19/20| ≤ 1/2000) := by
  constructor
  · norm_num [detectorRun, detectorStep, updateBooks, evaluateBooks, detectorMarketPrices,
      extractMarketPrices, extractBestPrice, calculateLiquidity, calculateArbitrage,
      opinionFeeRate, polymarketFeeRate, cfgDefault, bookS1A, bookS1B]
  · norm_num

open Detect in
/-- C5 amended: the detector applies no duplicate suppression — whether a
step emits depends only on the fused books after the update, never on the
time of or cost in any previous emission: appending one update appends
exactly the emission its own evaluation yields, and that emission is
determined by `evaluateBooks` on the updated state. -/
theorem C5_no_duplicate_suppression (cfg : Arb.ArbConfig) (opinionId polymarketId : String)
    (s : MarketOrderbooks) (us : List BookUpdate) (u : BookUpdate) :
    (detectorRun cfg opinionId polymarketId s (us ++ [u])
      = detectorRun cfg opinionId polymarketId s us
        ++ (detectorStep cfg opinionId polymarketId
            (detectorFinal cfg opinionId polymarketId s us) u).2.toList) ∧
    (∀ st, (detectorStep cfg opinionId polymarketId st u).2
        = (evaluateBooks cfg opinionId polymarketId u.time (updateBooks st u)).map
            (fun r => { time := u.time, combinedCost := r.combinedCost })) := by
  constructor
  · induction us generalizing s with
    | nil => simp [detectorRun, detectorRun_cons, detectorFinal]
    | cons v vs ih =>
      rw [List.cons_append, detectorRun_cons, detectorRun_cons, ih]
      simp [detectorFinal]
  · intro st
    unfold detectorStep
    cases h : evaluateBooks cfg opinionId polymarketId u.time (updateBooks st u) <;> simp [h]

namespace Match

/-- `levenshtein` of a string with itself is zero. -/
theorem levenshtein_self (s : List Char) : levenshtein s s = 0 := by
  induction s with
  | nil => simp [levenshtein]
  | cons x xs ih => simp [levenshtein, ih]

/-- Levenshtein similarity of a string with itself is 1. -/
theorem calculateLevenshteinSimilarity_self (s : List Char) :
    calculateLevenshteinSimilarity s s = 1 := by
  unfold calculateLevenshteinSimilarity
  simp only [max_self]
  by_cases h : s.length = 0
  · simp [h]
  · simp [h, levenshtein_self]

/-- Jaro similarity of a string with itself is 1 (the equal-string
shortcut). -/
theorem calculateJaroSimilarity_self (s : List Char) :
    calculateJaroSimilarity s s = 1 := by
  simp [calculateJaroSimilarity]

/-- Jaro-Winkler similarity of a string with itself is 1. -/
theorem calculateJaroWinklerSimilarity_self (s : List Char) :
    calculateJaroWinklerSimilarity s s = 1 := by
  simp [calculateJaroWinklerSimilarity, calculateJaroSimilarity_self]

/-- Token overlap of a non-empty token list with itself is 1. -/
theorem calculateTokenOverlap_self (tokens : List String) (h : tokens ≠ []) :
    calculateTokenOverlap tokens tokens = 1 := by
  unfold calculateTokenOverlap
  have hcard : 0 < tokens.toFinset.card := by
    rcases tokens with _ | ⟨t, ts⟩
    · exact absurd rfl h
    · exact Finset.card_pos.mpr ⟨t, by simp⟩
  simp only [Finset.inter_self, Finset.union_self, if_pos hcard]
  exact div_self (by positivity)

/-- Date similarity of a date list with itself is 1. -/
theorem calculateDateSimilarity_self (dates : List ℤ) :
    calculateDateSimilarity dates dates = 1 := by
  unfold calculateDateSimilarity
  rcases dates with _ | ⟨d, ds⟩
  · simp
  · have hany : (d :: ds).any (fun d1 => (d :: ds).any
        (fun d2 => decide ((|d1 - d2| : ℚ) / (1000 * 60 * 60 * 24) ≤ 1))) = true := by
      simp only [List.any_eq_true]
      refine ⟨d, by simp, d, by simp, ?_⟩
      simp
    simp [hany]

end Match

open Match in
/-- Counterexample to C9: on a market whose token list is empty the
self-similarity is 0.7, not 1.0 — the Jaccard overlap of two empty token
sets evaluates to 0. -/
theorem C9_self_similarity_below_one :
    calculateSimilarity marketNoTokens marketNoTokens = 7/10 ∧ (7/10 : ℚ) ≠ 1 := by
  constructor
  · unfold calculateSimilarity
    rw [calculateLevenshteinSimilarity_self, calculateJaroWinklerSimilarity_self,
        calculateDateSimilarity_self]
    norm_num [calculateTokenOverlap, marketNoTokens]
  · norm_num

namespace Match

/-- The two scenario listings have similarity 1 (identical wording). -/
theorem similarity_marketO_marketP : calculateSimilarity marketO marketP = 1 := by
  unfold calculateSimilarity
  rw [show marketO.normalizedTitle = marketP.normalizedTitle from rfl]
  rw [calculateLevenshteinSimilarity_self, calculateJaroWinklerSimilarity_self]
  rw [show marketO.tokens = marketP.tokens from rfl]
  rw [calculateTokenOverlap_self _ (by simp [marketP])]
  rw [show marketO.dates = marketP.dates from rfl]
  rw [calculateDateSimilarity_self]
  norm_num

/-- A sync over the scenario listings produces exactly one match, with a
canonical id suffixed by the sync time. -/
theorem matchMarkets_scenario (now : ℤ) :
    matchMarkets [marketO] [marketP] now =
      [ { canonicalId := generateCanonicalId marketO marketP now
          opinionId := "o1", opinionTitle := "BTC"
          polymarketId := "p1", polymarketTitle := "BTC"
          similarityScore := 1 } ] := by
  unfold matchMarkets matchMarketsAux bestCandidate bestCandidateLoop bestCandidateStep
  simp only [List.not_mem_nil, if_false]
  rw [similarity_marketO_marketP]
  norm_num [similarityThreshold, matchMarketsAux, bestCandidateLoop]
  exact ⟨rfl, rfl, rfl, rfl⟩

/-- The canonical id generated for the scenario pair at time 1. -/
theorem generateCanonicalId_scenario_one :
    generateCanonicalId marketO marketP 1 = "market-btc-1" := by
  simp [generateCanonicalId, marketO, marketP, replaceWs]
  rfl

/-- The canonical id generated for the scenario pair at time 2. -/
theorem generateCanonicalId_scenario_two :
    generateCanonicalId marketO marketP 2 = "market-btc-2" := by
  simp [generateCanonicalId, marketO, marketP, replaceWs]
  rfl

end Match

open Match in
/-- Counterexample to C8: two market-sync runs over the same listings at
wall-clock times 1 and 2 persist two rows with distinct canonical ids
that both reference opinion market `o1` and polymarket market `p1` — a
venue market id maps to two canonical ids. -/
theorem C8_two_syncs_duplicate_venue_ids :
    syncMarkets (syncMarkets [] [marketO] [marketP] 1) [marketO] [marketP] 2
      = [ { canonical_market_id := "market-btc-1", opinion_market_id := some "o1"
            polymarket_market_id := some "p1", market_title := "BTC"
            similarity_score := some 1 }
        , { canonical_market_id := "market-btc-2", opinion_market_id := some "o1"
            polymarket_market_id := some "p1", market_title := "BTC"
            similarity_score := some 1 } ] ∧
    ("market-btc-1" : String) ≠ "market-btc-2" := by
  constructor
  · unfold syncMarkets
    rw [matchMarkets_scenario, matchMarkets_scenario,
        generateCanonicalId_scenario_one, generateCanonicalId_scenario_two]
    simp [saveMatches, findByCanonicalId]
  · decide

namespace Match

/-- One candidate step either keeps the current best or switches to the
scanned market, which is then not in the matched set. -/
theorem bestCandidateStep_invariant (om : NormalizedMarket) (matchedIds : List String)
    (best : Option (NormalizedMarket × ℚ)) (pm : NormalizedMarket) :
    bestCandidateStep om matchedIds best pm = best ∨
    (pm.id ∉ matchedIds ∧ ∃ s, bestCandidateStep om matchedIds best pm = some (pm, s)) := by
  unfold bestCandidateStep
  by_cases hmem : pm.id ∈ matchedIds
  · left
    rw [if_pos hmem]
  · rw [if_neg hmem]
    by_cases hth : similarityThreshold ≤ calculateSimilarity om pm
    · simp only [if_pos hth]
      cases best with
      | none => exact Or.inr ⟨hmem, calculateSimilarity om pm, rfl⟩
      | some b =>
        by_cases hlt : b.2 < calculateSimilarity om pm
        · exact Or.inr ⟨hmem, calculateSimilarity om pm, by simp [hlt]⟩
        · left
          simp [hlt]
    · left
      simp [hth]

/-- The candidate loop never returns a market whose id is already in the
matched set. -/
theorem bestCandidateLoop_not_matched (om : NormalizedMarket) (matchedIds : List String)
    (pms : List NormalizedMarket) (best : Option (NormalizedMarket × ℚ))
    (hbest : ∀ r, best = some r → r.1.id ∉ matchedIds)
    (res : NormalizedMarket × ℚ)
    (h : bestCandidateLoop om matchedIds pms best = some res) : res.1.id ∉ matchedIds := by
  induction pms generalizing best with
  | nil => exact hbest res h
  | cons pm pms ih =>
    refine ih (bestCandidateStep om matchedIds best pm) ?_ h
    intro r hr
    rcases bestCandidateStep_invariant om matchedIds best pm with heq | ⟨hnm, s, heq⟩
    · rw [heq] at hr
      exact hbest r hr
    · rw [heq] at hr
      injection hr with hr
      rw [← hr]
      exact hnm

/-- The resolved `bestCandidate` is never an already matched market. -/
theorem bestCandidate_not_matched (om : NormalizedMarket)
    (pms : List NormalizedMarket) (matchedIds : List String)
    (res : NormalizedMarket × ℚ)
    (h : bestCandidate om pms matchedIds = some res) : res.1.id ∉ matchedIds :=
  bestCandidateLoop_not_matched om matchedIds pms none (by intro r hr; cases hr) res h

/-- Every produced match takes its opinion id from the remaining opinion
listings and its polymarket id from outside the matched set. -/
theorem matchMarketsAux_mem (pms : List NormalizedMarket) (now : ℤ)
    (oms : List NormalizedMarket) (matchedIds : List String) (m : MarketMatch)
    (h : m ∈ matchMarketsAux pms now oms matchedIds) :
    m.opinionId ∈ oms.map (fun o => o.id) ∧ m.polymarketId ∉ matchedIds := by
  induction oms generalizing matchedIds with
  | nil => cases h
  | cons om oms ih =>
    unfold matchMarketsAux at h
    cases hbc : bestCandidate om pms matchedIds with
    | none =>
      rw [hbc] at h
      have := ih matchedIds h
      exact ⟨List.mem_cons_of_mem _ this.1, this.2⟩
    | some best =>
      rw [hbc] at h
      rcases List.mem_cons.mp h with hhead | htail
      · subst hhead
        refine ⟨by simp, ?_⟩
        exact bestCandidate_not_matched om pms matchedIds best hbc
      · have := ih (best.1.id :: matchedIds) htail
        refine ⟨List.mem_cons_of_mem _ this.1, ?_⟩
        intro hmem
        exact this.2 (List.mem_cons_of_mem _ hmem)

/-- Within one matching run the produced matches use pairwise distinct
opinion ids and pairwise distinct polymarket ids. -/
theorem matchMarketsAux_pairwise (pms : List NormalizedMarket) (now : ℤ)
    (oms : List NormalizedMarket) (matchedIds : List String)
    (h : (oms.map (fun o => o.id)).Nodup) :
    (matchMarketsAux pms now oms matchedIds).Pairwise
      (fun m1 m2 => m1.opinionId ≠ m2.opinionId ∧ m1.polymarketId ≠ m2.polymarketId) := by
  induction oms generalizing matchedIds with
  | nil => exact List.Pairwise.nil
  | cons om oms ih =>
    have hnd : (oms.map (fun o => o.id)).Nodup := (List.nodup_cons.mp h).2
    have hom : om.id ∉ oms.map (fun o => o.id) := (List.nodup_cons.mp h).1
    unfold matchMarketsAux
    cases hbc : bestCandidate om pms matchedIds with
    | none => exact ih matchedIds hnd
    | some best =>
      refine List.Pairwise.cons ?_ (ih (best.1.id :: matchedIds) hnd)
      intro m hm
      have hmem := matchMarketsAux_mem pms now oms (best.1.id :: matchedIds) m hm
      constructor
      · intro heq
        simp only at heq
        rw [← heq] at hmem
        exact hom hmem.1
      · intro heq
        simp only at heq
        exact hmem.2 (by rw [← heq]; exact List.mem_cons_self _ _)

end Match

open Match in
/-- C8 amended: within a single market-sync run the greedy one-to-one
matching references each opinion market id at most once (given distinct
listing ids) and each polymarket market id at most once; across runs the
wall-clock suffix of `generateCanonicalId` creates fresh canonical ids,
so the persisted table can hold two canonical ids for one venue id. -/
theorem C8_single_sync_one_to_one (opinionMarkets polymarketMarkets : List NormalizedMarket)
    (now : ℤ) (h : (opinionMarkets.map (fun o => o.id)).Nodup) :
    (matchMarkets opinionMarkets polymarketMarkets now).Pairwise
      (fun m1 m2 => m1.opinionId ≠ m2.opinionId ∧ m1.polymarketId ≠ m2.polymarketId) :=
  matchMarketsAux_pairwise polymarketMarkets now opinionMarkets [] h

open Match in
/-- Witness for C8 amended at the scenario listings. -/
theorem C8_single_sync_one_to_one_witness :
    ([marketO].map (fun o => o.id)).Nodup ∧
    (matchMarkets [marketO] [marketP] 3).Pairwise
      (fun m1 m2 => m1.opinionId ≠ m2.opinionId ∧ m1.polymarketId ≠ m2.polymarketId) :=
  ⟨by simp, C8_single_sync_one_to_one [marketO] [marketP] 3 (by simp)⟩

namespace Match

/-- The window test is symmetric in its two indices. -/
theorem inWindow_comm (w : ℤ) (i j : ℕ) : inWindow w i j = inWindow w j i := by
  unfold inWindow
  rcases h1 : decide ((i : ℤ) - w ≤ (j : ℤ)) with _ | _ <;>
    rcases h2 : decide ((j : ℤ) ≤ (i : ℤ) + w) with _ | _ <;>
    rcases h3 : decide ((j : ℤ) - w ≤ (i : ℤ)) with _ | _ <;>
    rcases h4 : decide ((i : ℤ) ≤ (j : ℤ) + w) with _ | _ <;>
    simp_all <;> omega

/-- An empty window matches nothing. -/
theorem inWindow_of_neg (w : ℤ) (hw : w < 0) (i j : ℕ) : inWindow w i j = false := by
  unfold inWindow
  rcases h1 : decide ((i : ℤ) - w ≤ (j : ℤ)) with _ | _ <;>
    rcases h2 : decide ((j : ℤ) ≤ (i : ℤ) + w) with _ | _ <;> simp_all <;> omega

/-- With an empty window the greedy matching is empty. -/
theorem grMatch_of_neg (w : ℤ) (hw : w < 0) : ∀ (as bs : List ℕ), grMatch w as bs = [] := by
  intro as
  induction as with
  | nil => intro bs; rfl
  | cons a as ih =>
    intro bs
    unfold grMatch
    have hfind : bs.find? (fun b => inWindow w a b) = none := by
      apply List.find?_eq_none.mpr
      intro b _
      simp [inWindow_of_neg w hw]
    rw [hfind]
    exact ih bs

/-- `tpMatch` on an empty left list. -/
theorem tpMatch_nil_left (w : ℤ) (bs : List ℕ) : tpMatch w [] bs = [] := by
  simp [tpMatch]

/-- `tpMatch` on an empty right list. -/
theorem tpMatch_nil_right (w : ℤ) (as : List ℕ) : tpMatch w as [] = [] := by
  simp [tpMatch]

/-- Unfolding of `tpMatch` on two non-empty lists. -/
theorem tpMatch_cons_cons (w : ℤ) (a b : ℕ) (as bs : List ℕ) :
    tpMatch w (a :: as) (b :: bs) =
      (if inWindow w a b then (a, b) :: tpMatch w as bs
       else if (b : ℤ) < (a : ℤ) - w then tpMatch w (a :: as) bs
       else tpMatch w as (b :: bs)) := by
  rw [tpMatch]

/-- The two-pointer matching of the swapped lists is the transposed
matching (window at least 0). -/
theorem tpMatch_swap (w : ℤ) (hw : 0 ≤ w) (as bs : List ℕ) :
    tpMatch w bs as = (tpMatch w as bs).map Prod.swap := by
  suffices hgen : ∀ (n : ℕ) (as bs : List ℕ), as.length + bs.length ≤ n →
      tpMatch w bs as = (tpMatch w as bs).map Prod.swap from
    hgen (as.length + bs.length) as bs le_rfl
  intro n
  induction n with
  | zero =>
    intro as bs h
    have ha : as = [] := List.length_eq_zero.mp (by omega)
    have hb : bs = [] := List.length_eq_zero.mp (by omega)
    subst ha hb
    simp [tpMatch_nil_left]
  | succ n ih =>
    intro as bs h
    match as, bs with
    | [], bs => simp [tpMatch_nil_left, tpMatch_nil_right]
    | a :: as, [] => simp [tpMatch_nil_left, tpMatch_nil_right]
    | a :: as, b :: bs =>
      rw [tpMatch_cons_cons, tpMatch_cons_cons]
      simp only [List.length_cons] at h
      by_cases h1 : inWindow w a b
      · rw [if_pos h1, if_pos (by rw [inWindow_comm]; exact h1)]
        rw [ih as bs (by omega)]
        rfl
      · rw [if_neg h1, if_neg (by rw [inWindow_comm]; exact h1)]
        have hwin : ¬ ((a : ℤ) - w ≤ (b : ℤ) ∧ (b : ℤ) ≤ (a : ℤ) + w) := by
          intro hc
          apply h1
          unfold inWindow
          simp [hc.1, hc.2]
        by_cases h2 : (b : ℤ) < (a : ℤ) - w
        · rw [if_pos h2, if_neg (by omega)]
          exact ih (a :: as) bs (by simp; omega)
        · rw [if_neg h2, if_pos (by omega)]
          exact ih as (b :: bs) (by simp; omega)

/-- Unfolding of `grMatch` on a cons. -/
theorem grMatch_cons (w : ℤ) (a : ℕ) (as bs : List ℕ) :
    grMatch w (a :: as) bs =
      (match bs.find? (fun b => inWindow w a b) with
       | some b => (a, b) :: grMatch w as (bs.erase b)
       | none => grMatch w as bs) := rfl

/-- A right index strictly left of every window can be dropped from the
candidate list without changing the greedy matching. -/
theorem grMatch_drop_stale (w : ℤ) (b : ℕ) (as bs : List ℕ)
    (h : ∀ a ∈ as, (b : ℤ) < (a : ℤ) - w) :
    grMatch w as (b :: bs) = grMatch w as bs := by
  induction as generalizing bs with
  | nil => rfl
  | cons a as ih =>
    have hb : inWindow w a b = false := by
      have := h a (List.mem_cons_self a as)
      unfold inWindow
      rcases hd : decide ((a : ℤ) - w ≤ (b : ℤ)) with _ | _ <;> simp_all <;> omega
    have htail : ∀ x ∈ as, (b : ℤ) < (x : ℤ) - w :=
      fun x hx => h x (List.mem_cons_of_mem a hx)
    cases hf : bs.find? (fun x => inWindow w a x) with
    | none =>
      rw [grMatch_cons, List.find?_cons_of_neg _ (by simp [hb]), hf,
          grMatch_cons, hf]
      simp only []
      exact ih bs htail
    | some b2 =>
      have hb2 : inWindow w a b2 = true := by
        have := List.find?_some hf
        simpa using this
      have hne : b ≠ b2 := by
        intro he
        rw [he] at hb
        rw [hb] at hb2
        cases hb2
      rw [grMatch_cons, List.find?_cons_of_neg _ (by simp [hb]), hf,
          grMatch_cons, hf]
      simp only []
      rw [List.erase_cons_tail (by simpa using hne)]
      rw [ih (bs.erase b2) htail]

/-- On sorted index lists the greedy matching and the two-pointer
matching coincide. -/
theorem grMatch_eq_tpMatch (w : ℤ) (as bs : List ℕ)
    (has : as.Pairwise (· ≤ ·)) (hbs : bs.Pairwise (· ≤ ·)) :
    grMatch w as bs = tpMatch w as bs := by
  suffices hgen : ∀ (n : ℕ) (as bs : List ℕ), as.length + bs.length ≤ n →
      as.Pairwise (· ≤ ·) → bs.Pairwise (· ≤ ·) →
      grMatch w as bs = tpMatch w as bs from
    hgen (as.length + bs.length) as bs le_rfl has hbs
  clear has hbs as bs
  intro n
  induction n with
  | zero =>
    intro as bs h _ _
    have ha : as = [] := List.length_eq_zero.mp (by omega)
    subst ha
    simp [grMatch, tpMatch_nil_left]
  | succ n ih =>
    intro as bs h has hbs
    match as, bs with
    | [], bs => simp [grMatch, tpMatch_nil_left]
    | a :: as, [] =>
      rw [tpMatch_nil_right, grMatch_cons, List.find?_nil]
      simp only []
      have hrec : grMatch w as [] = tpMatch w as [] := by
        apply ih as [] (by simp only [List.length_cons, List.length_nil] at h ⊢; omega)
          (List.Pairwise.sublist (List.sublist_cons_self a as) has) List.Pairwise.nil
      rw [hrec, tpMatch_nil_right]
    | a :: as, b :: bs =>
      simp only [List.length_cons] at h
      have htas : as.Pairwise (· ≤ ·) := (List.pairwise_cons.mp has).2
      have htbs : bs.Pairwise (· ≤ ·) := (List.pairwise_cons.mp hbs).2
      rw [tpMatch_cons_cons]
      by_cases h1 : inWindow w a b
      · rw [if_pos h1]
        rw [grMatch_cons, List.find?_cons_of_pos _ (by simpa using h1)]
        simp only []
        rw [List.erase_cons_head]
        rw [ih as bs (by omega) htas htbs]
      · rw [if_neg h1]
        have hwin : ¬ ((a : ℤ) - w ≤ (b : ℤ) ∧ (b : ℤ) ≤ (a : ℤ) + w) := by
          intro hc
          apply h1
          unfold inWindow
          simp [hc.1, hc.2]
        by_cases h2 : (b : ℤ) < (a : ℤ) - w
        · rw [if_pos h2]
          rw [grMatch_drop_stale w b (a :: as) bs ?stale]
          · exact ih (a :: as) bs (by simp only [List.length_cons]; omega) has htbs
          case stale =>
            intro x hx
            rcases List.mem_cons.mp hx with hxa | hxs
            · subst hxa; exact h2
            · have hax : a ≤ x := (List.pairwise_cons.mp has).1 x hxs
              have : (a : ℤ) ≤ (x : ℤ) := by exact_mod_cast hax
              omega
        · rw [if_neg h2]
          have hb_gt : (a : ℤ) + w < (b : ℤ) := by
            rcases not_and_or.mp hwin with hA | hB
            · omega
            · omega
          have hfn : (b :: bs).find? (fun x => inWindow w a x) = none := by
            apply List.find?_eq_none.mpr
            intro x hx
            have hbx : b ≤ x := by
              rcases List.mem_cons.mp hx with hxb | hxs
              · subst hxb; exact le_rfl
              · exact (List.pairwise_cons.mp hbs).1 x hxs
            have hbx2 : (b : ℤ) ≤ (x : ℤ) := by exact_mod_cast hbx
            unfold inWindow
            rcases hd : decide ((a : ℤ) - w ≤ (x : ℤ)) with _ | _ <;> simp_all <;> omega
          rw [grMatch_cons, hfn]
          simp only []
          exact ih as (b :: bs) (by simp only [List.length_cons]; omega) htas hbs

/-- `grMatch` on swapped sorted lists is the transposed matching. -/
theorem grMatch_swap (w : ℤ) (as bs : List ℕ)
    (has : as.Pairwise (· ≤ ·)) (hbs : bs.Pairwise (· ≤ ·)) :
    grMatch w bs as = (grMatch w as bs).map Prod.swap := by
  by_cases hw : 0 ≤ w
  · rw [grMatch_eq_tpMatch w bs as hbs has, grMatch_eq_tpMatch w as bs has hbs,
        tpMatch_swap w hw]
  · rw [grMatch_of_neg w (by omega), grMatch_of_neg w (by omega)]
    rfl

/-- `find?` after `filter` merges into one `find?`. -/
theorem find?_after_filter {α : Type} (l : List α) (p q : α → Bool) :
    (l.filter p).find? q = l.find? (fun a => p a && q a) := by
  induction l with
  | nil => rfl
  | cons x xs ih =>
    by_cases hp : p x = true
    · rw [List.filter_cons_of_pos hp]
      by_cases hq : q x = true
      · rw [List.find?_cons_of_pos _ hq, List.find?_cons_of_pos _ (by simp [hp, hq])]
      · rw [List.find?_cons_of_neg _ (by simpa using hq),
            List.find?_cons_of_neg _ (by simp [hp, hq]), ih]
    · rw [List.filter_cons_of_neg (by simpa using hp),
          List.find?_cons_of_neg _ (by simp [hp]), ih]

/-- Membership in a character-class index list. -/
theorem mem_posOf (s : List Char) (c : Char) (j : ℕ) :
    j ∈ posOf s c ↔ (j < s.length ∧ s.get? j = some c) := by
  unfold posOf
  simp [List.mem_filter, List.mem_range]

/-- A successful candidate search matches characters, avoids the used
set, stays in range and in the window. -/
theorem findMatchIndex_some (s1 s2 : List Char) (w : ℤ) (used : List ℕ) (i j : ℕ)
    (h : findMatchIndex s1 s2 w used i = some j) :
    s1.get? i = s2.get? j ∧ j ∉ used ∧ j < s2.length ∧ inWindow w i j = true := by
  unfold findMatchIndex at h
  have hmem := List.mem_of_find?_eq_some h
  have hpred := List.find?_some h
  simp only [List.mem_filter, List.mem_range] at hmem
  simp only [Bool.and_eq_true, decide_eq_true_eq] at hpred
  exact ⟨hpred.2, hpred.1, hmem.1, hmem.2⟩

/-- For an index of class `c`, the candidate search is the class-level
greedy search over the unused class positions of `str2`. -/
theorem findMatchIndex_eq_class (s1 s2 : List Char) (w : ℤ) (used : List ℕ) (i : ℕ)
    (c : Char) (hc : s1.get? i = some c) :
    findMatchIndex s1 s2 w used i
      = ((posOf s2 c).filter (fun j => decide (j ∉ used))).find? (fun j => inWindow w i j) := by
  unfold findMatchIndex posOf
  rw [find?_after_filter, find?_after_filter, find?_after_filter]
  congr 1
  funext j
  have hcc : decide (s1.get? i = s2.get? j) = decide (s2.get? j = some c) := by
    apply decide_eq_decide.mpr
    rw [hc]
    exact eq_comm
  rw [hcc]
  generalize inWindow w i j = A
  generalize decide (j ∉ used) = B
  generalize decide (s2.get? j = some c) = C
  cases A <;> cases B <;> cases C <;> rfl

/-- Unfolding of the Jaro match loop on a cons. -/
theorem jaroPairsAux_cons (s1 s2 : List Char) (w : ℤ) (i : ℕ) (is used : List ℕ) :
    jaroPairsAux s1 s2 w (i :: is) used =
      (match findMatchIndex s1 s2 w used i with
       | some j => (i, j) :: jaroPairsAux s1 s2 w is (j :: used)
       | none => jaroPairsAux s1 s2 w is used) := rfl

/-- The class positions of `str2` not yet used form a duplicate-free
list. -/
theorem posOf_filter_nodup (s2 : List Char) (c : Char) (used : List ℕ) :
    ((posOf s2 c).filter (fun j => decide (j ∉ used))).Nodup :=
  ((List.nodup_range _).filter _).filter _

/-- Restricted to the indices of one character class, the Jaro match loop
is exactly the class-level greedy matching over the unused class
positions. -/
theorem jaroPairsAux_class (s1 s2 : List Char) (w : ℤ) (c : Char) (is : List ℕ) :
    ∀ (used : List ℕ),
      (jaroPairsAux s1 s2 w is used).filter (fun p => decide (s1.get? p.1 = some c))
        = grMatch w (is.filter (fun i => decide (s1.get? i = some c)))
            ((posOf s2 c).filter (fun j => decide (j ∉ used))) := by
  induction is with
  | nil => intro used; rfl
  | cons i is ih =>
    intro used
    by_cases hci : s1.get? i = some c
    · rw [List.filter_cons_of_pos (by simpa using hci)]
      cases hf : findMatchIndex s1 s2 w used i with
      | some j =>
        have hcf : ((posOf s2 c).filter (fun j2 => decide (j2 ∉ used))).find?
            (fun j2 => inWindow w i j2) = some j := by
          rw [← findMatchIndex_eq_class s1 s2 w used i c hci, hf]
        rw [jaroPairsAux_cons, hf]
        simp only []
        rw [List.filter_cons_of_pos (by simpa using hci), grMatch_cons, hcf]
        simp only []
        congr 1
        rw [ih (j :: used)]
        congr 1
        rw [List.Nodup.erase_eq_filter (posOf_filter_nodup s2 c used) j, List.filter_filter]
        apply List.filter_congr
        intro x _
        have hiff : (x ∉ j :: used) ↔ ((x ≠ j) ∧ x ∉ used) := by
          simp [List.mem_cons, not_or]
        rw [decide_eq_decide.mpr hiff, Bool.decide_and]
        cases hd1 : decide (x ≠ j) <;> cases hd2 : decide (x ∉ used) <;> simp_all
      | none =>
        have hcf : ((posOf s2 c).filter (fun j2 => decide (j2 ∉ used))).find?
            (fun j2 => inWindow w i j2) = none := by
          rw [← findMatchIndex_eq_class s1 s2 w used i c hci, hf]
        rw [jaroPairsAux_cons, hf]
        simp only []
        rw [ih used, grMatch_cons, hcf]
    · rw [List.filter_cons_of_neg (by simpa using hci)]
      cases hf : findMatchIndex s1 s2 w used i with
      | some j =>
        have hchar := (findMatchIndex_some s1 s2 w used i j hf).1
        rw [jaroPairsAux_cons, hf]
        simp only []
        rw [List.filter_cons_of_neg (by simpa using hci), ih (j :: used)]
        congr 1
        apply List.filter_congr
        intro x hx
        have hxc : s2.get? x = some c := ((mem_posOf s2 c x).mp hx).2
        have hxj : x ≠ j := by
          intro he
          apply hci
          rw [hchar, ← he, hxc]
        apply decide_eq_decide.mpr
        simp [List.mem_cons, not_or, hxj]
      | none =>
        rw [jaroPairsAux_cons, hf]
        simp only []
        exact ih used

/-- `jaroPairs` unfolded to the loop over all `str1` indices. -/
theorem jaroPairs_eq_aux (s1 s2 : List Char) :
    jaroPairs s1 s2
      = jaroPairsAux s1 s2 (jaroWindowWidth s1 s2) (List.range s1.length) [] := rfl

/-- The window width is symmetric. -/
theorem jaroWindowWidth_comm (s1 s2 : List Char) :
    jaroWindowWidth s2 s1 = jaroWindowWidth s1 s2 := by
  unfold jaroWindowWidth
  rw [max_comm]

/-- Class positions are sorted. -/
theorem posOf_pairwise (s : List Char) (c : Char) : (posOf s c).Pairwise (· ≤ ·) :=
  ((List.pairwise_lt_range _).filter _).imp le_of_lt

/-- Every pair the loop produces matches characters and has an in-range
second index and a first index from the processed list. -/
theorem jaroPairsAux_charEq (s1 s2 : List Char) (w : ℤ) (is : List ℕ) :
    ∀ (used : List ℕ) (p : ℕ × ℕ), p ∈ jaroPairsAux s1 s2 w is used →
      s1.get? p.1 = s2.get? p.2 ∧ p.1 ∈ is ∧ p.2 < s2.length := by
  induction is with
  | nil => intro used p hp; cases hp
  | cons i is ih =>
    intro used p hp
    rw [jaroPairsAux_cons] at hp
    cases hf : findMatchIndex s1 s2 w used i with
    | some j =>
      rw [hf] at hp
      simp only [List.mem_cons] at hp
      rcases hp with hp | hp
      · subst hp
        have := findMatchIndex_some s1 s2 w used i j hf
        exact ⟨this.1, List.mem_cons_self i is, this.2.2.1⟩
      · have := ih (j :: used) p hp
        exact ⟨this.1, List.mem_cons_of_mem i this.2.1, this.2.2⟩
    | none =>
      rw [hf] at hp
      have := ih used p hp
      exact ⟨this.1, List.mem_cons_of_mem i this.2.1, this.2.2⟩

/-- The first components of the produced pairs form a sublist of the
processed index list. -/
theorem jaroPairsAux_fst_sublist (s1 s2 : List Char) (w : ℤ) (is : List ℕ) :
    ∀ used : List ℕ, List.Sublist ((jaroPairsAux s1 s2 w is used).map Prod.fst) is := by
  induction is with
  | nil => intro used; exact List.Sublist.refl []
  | cons i is ih =>
    intro used
    rw [jaroPairsAux_cons]
    cases hf : findMatchIndex s1 s2 w used i with
    | some j => exact List.Sublist.cons₂ i (ih (j :: used))
    | none => exact List.Sublist.cons i (ih used)

/-- The produced pair list has no duplicates. -/
theorem jaroPairs_nodup (s1 s2 : List Char) : (jaroPairs s1 s2).Nodup := by
  have hfst := jaroPairsAux_fst_sublist s1 s2 (jaroWindowWidth s1 s2) (List.range s1.length) []
  rw [← jaroPairs_eq_aux] at hfst
  exact List.Nodup.of_map Prod.fst (hfst.nodup (List.nodup_range _))

/-- Every member of a greedy matching projects into the two index
lists. -/
theorem grMatch_mem (w : ℤ) (as : List ℕ) :
    ∀ (bs : List ℕ) (p : ℕ × ℕ), p ∈ grMatch w as bs → p.1 ∈ as ∧ p.2 ∈ bs := by
  induction as with
  | nil => intro bs p hp; cases hp
  | cons a as ih =>
    intro bs p hp
    rw [grMatch_cons] at hp
    cases hf : bs.find? (fun b => inWindow w a b) with
    | some b =>
      rw [hf] at hp
      simp only [List.mem_cons] at hp
      rcases hp with hp | hp
      · subst hp
        exact ⟨List.mem_cons_self a as, List.mem_of_find?_eq_some hf⟩
      · have := ih (bs.erase b) p hp
        exact ⟨List.mem_cons_of_mem a this.1, List.erase_subset _ _ this.2⟩
    | none =>
      rw [hf] at hp
      have := ih bs p hp
      exact ⟨List.mem_cons_of_mem a this.1, this.2⟩

/-- Membership characterization of the Jaro pairs: a pair occurs exactly
when it occurs in the greedy matching of some character class. -/
theorem mem_jaroPairs (s1 s2 : List Char) (i j : ℕ) :
    (i, j) ∈ jaroPairs s1 s2 ↔
      ∃ c, (i, j) ∈ grMatch (jaroWindowWidth s1 s2) (posOf s1 c) (posOf s2 c) := by
  have hfilter : ∀ c, (jaroPairs s1 s2).filter (fun p => decide (s1.get? p.1 = some c))
      = grMatch (jaroWindowWidth s1 s2) (posOf s1 c) (posOf s2 c) := by
    intro c
    rw [jaroPairs_eq_aux, jaroPairsAux_class]
    have h1 : (List.range s1.length).filter (fun i2 => decide (s1.get? i2 = some c))
        = posOf s1 c := rfl
    have h2 : (posOf s2 c).filter (fun j2 => decide (j2 ∉ ([] : List ℕ))) = posOf s2 c := by
      apply List.filter_eq_self.mpr
      intro x _
      simp
    rw [h1, h2]
  constructor
  · intro hp
    have hchar := (jaroPairsAux_charEq s1 s2 (jaroWindowWidth s1 s2) (List.range s1.length) []
      (i, j) (by rw [← jaroPairs_eq_aux]; exact hp))
    have hi : i < s1.length := List.mem_range.mp hchar.2.1
    obtain ⟨c, hc⟩ : ∃ c, s1.get? i = some c := by
      cases hg : s1.get? i with
      | none => rw [List.get?_eq_none] at hg; omega
      | some c => exact ⟨c, rfl⟩
    refine ⟨c, ?_⟩
    rw [← hfilter c]
    rw [List.mem_filter]
    exact ⟨hp, by simpa using hc⟩
  · intro ⟨c, hc⟩
    rw [← hfilter c] at hc
    exact (List.mem_filter.mp hc).1

/-- The Jaro pair list of the swapped strings is a permutation of the
transposed pair list. -/
theorem jaroPairs_swap_perm (s1 s2 : List Char) :
    (jaroPairs s2 s1).Perm ((jaroPairs s1 s2).map Prod.swap) := by
  apply (List.perm_ext_iff_of_nodup (jaroPairs_nodup s2 s1)
    ((jaroPairs_nodup s1 s2).map (fun p q hpq => by
      have := congrArg Prod.swap hpq
      simpa using this))).mpr
  intro p
  obtain ⟨j, i⟩ := p
  have hmapmem : ((j, i) ∈ (jaroPairs s1 s2).map Prod.swap) ↔ (i, j) ∈ jaroPairs s1 s2 := by
    constructor
    · intro hm
      obtain ⟨q, hq, hqe⟩ := List.mem_map.mp hm
      obtain ⟨qa, qb⟩ := q
      simp only [Prod.swap_prod_mk, Prod.mk.injEq] at hqe
      rw [← hqe.1, ← hqe.2]
      exact hq
    · intro hm
      exact List.mem_map.mpr ⟨(i, j), hm, rfl⟩
  rw [hmapmem, mem_jaroPairs, mem_jaroPairs]
  constructor
  · intro ⟨c, hc⟩
    refine ⟨c, ?_⟩
    rw [jaroWindowWidth_comm, grMatch_swap _ _ _ (posOf_pairwise s1 c) (posOf_pairwise s2 c)]
      at hc
    obtain ⟨q, hq, hqe⟩ := List.mem_map.mp hc
    obtain ⟨qa, qb⟩ := q
    simp only [Prod.swap_prod_mk, Prod.mk.injEq] at hqe
    rw [hqe.1, hqe.2] at hq
    exact hq
  · intro ⟨c, hc⟩
    refine ⟨c, ?_⟩
    rw [jaroWindowWidth_comm, grMatch_swap _ _ _ (posOf_pairwise s1 c) (posOf_pairwise s2 c)]
    exact List.mem_map.mpr ⟨(i, j), hc, rfl⟩

/-- `sortAsc` sorts. -/
theorem sortAsc_sorted (l : List ℕ) : (sortAsc l).Pairwise (· ≤ ·) :=
  List.sorted_insertionSort (· ≤ ·) l

/-- `sortAsc` permutes. -/
theorem sortAsc_perm (l : List ℕ) : (sortAsc l).Perm l :=
  List.perm_insertionSort (· ≤ ·) l

/-- The matched `str1` indices come out of the loop in ascending order. -/
theorem jaroPairs_fst_pairwise (s1 s2 : List Char) :
    ((jaroPairs s1 s2).map Prod.fst).Pairwise (· ≤ ·) := by
  have hsub := jaroPairsAux_fst_sublist s1 s2 (jaroWindowWidth s1 s2) (List.range s1.length) []
  rw [← jaroPairs_eq_aux] at hsub
  exact ((List.pairwise_lt_range _).sublist hsub).imp le_of_lt

/-- The matched first indices of the swapped run are the ascending
matched second indices of the direct run, and conversely. -/
theorem jaroPairs_swap_projections (s1 s2 : List Char) :
    (jaroPairs s2 s1).map Prod.fst = sortAsc ((jaroPairs s1 s2).map Prod.snd) ∧
    sortAsc ((jaroPairs s2 s1).map Prod.snd) = (jaroPairs s1 s2).map Prod.fst := by
  have hperm := jaroPairs_swap_perm s1 s2
  have hfst : ((jaroPairs s2 s1).map Prod.fst).Perm ((jaroPairs s1 s2).map Prod.snd) := by
    have h1 := hperm.map Prod.fst
    rw [List.map_map] at h1
    exact h1
  have hsnd : ((jaroPairs s2 s1).map Prod.snd).Perm ((jaroPairs s1 s2).map Prod.fst) := by
    have h1 := hperm.map Prod.snd
    rw [List.map_map] at h1
    exact h1
  constructor
  · exact List.eq_of_perm_of_sorted
      (hfst.trans (sortAsc_perm ((jaroPairs s1 s2).map Prod.snd)).symm)
      (jaroPairs_fst_pairwise s2 s1)
      (sortAsc_sorted ((jaroPairs s1 s2).map Prod.snd))
  · exact List.eq_of_perm_of_sorted
      ((sortAsc_perm ((jaroPairs s2 s1).map Prod.snd)).trans hsnd)
      (sortAsc_sorted ((jaroPairs s2 s1).map Prod.snd))
      (jaroPairs_fst_pairwise s1 s2)

/-- The transposition count is symmetric. -/
theorem jaro_transpositions_comm (s1 s2 : List Char) :
    ((((jaroPairs s2 s1).map Prod.fst).zip (sortAsc ((jaroPairs s2 s1).map Prod.snd))).filter
        (fun p => decide (s2.get? p.1 ≠ s1.get? p.2))).length
      = ((((jaroPairs s1 s2).map Prod.fst).zip (sortAsc ((jaroPairs s1 s2).map Prod.snd))).filter
          (fun p => decide (s1.get? p.1 ≠ s2.get? p.2))).length := by
  obtain ⟨hp1, hp2⟩ := jaroPairs_swap_projections s1 s2
  rw [hp1, hp2]
  have hzip : (sortAsc ((jaroPairs s1 s2).map Prod.snd)).zip ((jaroPairs s1 s2).map Prod.fst)
      = ((((jaroPairs s1 s2).map Prod.fst).zip
          (sortAsc ((jaroPairs s1 s2).map Prod.snd))).map Prod.swap) := by
    rw [List.zip_swap]
  rw [hzip, List.filter_map, List.length_map]
  apply congrArg
  apply List.filter_congr
  intro p _
  apply decide_eq_decide.mpr
  exact ne_comm

/-- The Jaro similarity is symmetric. -/
theorem calculateJaroSimilarity_comm (s1 s2 : List Char) :
    calculateJaroSimilarity s2 s1 = calculateJaroSimilarity s1 s2 := by
  unfold calculateJaroSimilarity
  by_cases he : s1 = s2
  · subst he
    rfl
  · rw [if_neg he, if_neg (fun h => he h.symm)]
    by_cases hz : s1.length = 0 ∨ s2.length = 0
    · rw [if_pos hz, if_pos (Or.symm hz)]
    · rw [if_neg hz, if_neg (fun h => hz (Or.symm h))]
      have hm : (jaroPairs s2 s1).length = (jaroPairs s1 s2).length := by
        rw [(jaroPairs_swap_perm s1 s2).length_eq, List.length_map]
      simp only []
      rw [hm, jaro_transpositions_comm s1 s2]
      by_cases hm0 : (jaroPairs s1 s2).length = 0
      · rw [if_pos hm0, if_pos hm0]
      · rw [if_neg hm0, if_neg hm0]
        ring

/-- Unfolding of `levenshtein` on two cons cells. -/
theorem levenshtein_cons_cons (x y : Char) (xs ys : List Char) :
    levenshtein (x :: xs) (y :: ys) =
      (if x = y then levenshtein xs ys
       else 1 + min (levenshtein xs ys)
              (min (levenshtein xs (y :: ys)) (levenshtein (x :: xs) ys))) := by
  rw [levenshtein]

/-- The edit distance is symmetric. -/
theorem levenshtein_comm (a b : List Char) : levenshtein a b = levenshtein b a := by
  suffices hgen : ∀ (n : ℕ) (a b : List Char), a.length + b.length ≤ n →
      levenshtein a b = levenshtein b a from hgen (a.length + b.length) a b le_rfl
  intro n
  induction n with
  | zero =>
    intro a b h
    have ha : a = [] := List.length_eq_zero.mp (by omega)
    have hb : b = [] := List.length_eq_zero.mp (by omega)
    subst ha hb
    rfl
  | succ n ih =>
    intro a b h
    match a, b with
    | [], [] => rfl
    | [], y :: ys => simp [levenshtein]
    | x :: xs, [] => simp [levenshtein]
    | x :: xs, y :: ys =>
      simp only [List.length_cons] at h
      rw [levenshtein_cons_cons, levenshtein_cons_cons]
      by_cases hxy : x = y
      · rw [if_pos hxy, if_pos hxy.symm]
        exact ih xs ys (by omega)
      · rw [if_neg hxy, if_neg (fun hc => hxy hc.symm)]
        rw [ih xs ys (by omega), ih xs (y :: ys) (by simp only [List.length_cons]; omega),
            ih (x :: xs) ys (by simp only [List.length_cons]; omega)]
        omega

/-- The Levenshtein similarity score is symmetric. -/
theorem calculateLevenshteinSimilarity_comm (s1 s2 : List Char) :
    calculateLevenshteinSimilarity s2 s1 = calculateLevenshteinSimilarity s1 s2 := by
  unfold calculateLevenshteinSimilarity
  rw [max_comm, levenshtein_comm s2 s1]

/-- The common-prefix length is symmetric. -/
theorem getCommonPrefixLength_comm (s1 : List Char) :
    ∀ (s2 : List Char) (m : ℕ), getCommonPrefixLength s1 s2 m = getCommonPrefixLength s2 s1 m := by
  induction s1 with
  | nil =>
    intro s2 m
    cases s2 <;> cases m <;> rfl
  | cons x xs ih =>
    intro s2 m
    cases s2 with
    | nil => cases m <;> rfl
    | cons y ys =>
      cases m with
      | zero => rfl
      | succ m =>
        unfold getCommonPrefixLength
        by_cases hxy : x = y
        · rw [if_pos hxy, if_pos hxy.symm, ih ys m]
        · rw [if_neg hxy, if_neg (fun hc => hxy hc.symm)]

/-- The Jaro-Winkler score is symmetric. -/
theorem calculateJaroWinklerSimilarity_comm (s1 s2 : List Char) :
    calculateJaroWinklerSimilarity s2 s1 = calculateJaroWinklerSimilarity s1 s2 := by
  unfold calculateJaroWinklerSimilarity
  rw [calculateJaroSimilarity_comm s1 s2, getCommonPrefixLength_comm s2 s1]

/-- The token overlap is symmetric. -/
theorem calculateTokenOverlap_comm (tokens1 tokens2 : List String) :
    calculateTokenOverlap tokens2 tokens1 = calculateTokenOverlap tokens1 tokens2 := by
  unfold calculateTokenOverlap
  simp only []
  rw [Finset.inter_comm, Finset.union_comm]

/-- The date similarity is symmetric. -/
theorem calculateDateSimilarity_comm (dates1 dates2 : List ℤ) :
    calculateDateSimilarity dates2 dates1 = calculateDateSimilarity dates1 dates2 := by
  unfold calculateDateSimilarity
  by_cases h1 : dates1 = [] ∧ dates2 = []
  · rw [if_pos ⟨h1.2, h1.1⟩, if_pos h1]
  · rw [if_neg (fun hc => h1 ⟨hc.2, hc.1⟩), if_neg h1]
    by_cases h2 : dates1 = [] ∨ dates2 = []
    · rw [if_pos (Or.symm h2), if_pos h2]
    · rw [if_neg (fun hc => h2 (Or.symm hc)), if_neg h2]
      have hany : (dates2.any fun d1 => dates1.any
            fun d2 => decide ((|d1 - d2| : ℚ) / (1000 * 60 * 60 * 24) ≤ 1))
          = (dates1.any fun d1 => dates2.any
            fun d2 => decide ((|d1 - d2| : ℚ) / (1000 * 60 * 60 * 24) ≤ 1)) := by
        have hiff : (dates2.any fun d1 => dates1.any
              fun d2 => decide ((|d1 - d2| : ℚ) / (1000 * 60 * 60 * 24) ≤ 1)) = true
            ↔ (dates1.any fun d1 => dates2.any
              fun d2 => decide ((|d1 - d2| : ℚ) / (1000 * 60 * 60 * 24) ≤ 1)) = true := by
          simp only [List.any_eq_true, decide_eq_true_eq]
          constructor
          · rintro ⟨x, hx, y, hy, hp⟩
            refine ⟨y, hy, x, hx, ?_⟩
            rwa [abs_sub_comm]
          · rintro ⟨x, hx, y, hy, hp⟩
            refine ⟨y, hy, x, hx, ?_⟩
            rwa [abs_sub_comm]
        cases hL : (dates2.any fun d1 => dates1.any
            fun d2 => decide ((|d1 - d2| : ℚ) / (1000 * 60 * 60 * 24) ≤ 1)) with
        | true => exact (hiff.mp hL).symm
        | false =>
          cases hR : (dates1.any fun d1 => dates2.any
              fun d2 => decide ((|d1 - d2| : ℚ) / (1000 * 60 * 60 * 24) ≤ 1)) with
          | true => rw [← hL, hiff.mpr hR]
          | false => rfl
      rw [hany]

/-- The composite similarity is symmetric. -/
theorem calculateSimilarity_comm (m1 m2 : NormalizedMarket) :
    calculateSimilarity m2 m1 = calculateSimilarity m1 m2 := by
  unfold calculateSimilarity
  rw [calculateLevenshteinSimilarity_comm m1.normalizedTitle m2.normalizedTitle,
      calculateJaroWinklerSimilarity_comm m1.normalizedTitle m2.normalizedTitle,
      calculateTokenOverlap_comm m1.tokens m2.tokens,
      calculateDateSimilarity_comm m1.dates m2.dates]

end Match

open Match in
/-- C9 amended: `calculateSimilarity(m, m) = 1.0` holds for every market
whose token list is non-empty (the Jaccard term of an empty token set is
0, breaking reflexivity there, see the counterexample), and
`calculateSimilarity` is symmetric in its two arguments. -/
theorem C9_similarity_reflexive_and_symmetric :
    (∀ m : NormalizedMarket, m.tokens ≠ [] → calculateSimilarity m m = 1) ∧
    (∀ m1 m2 : NormalizedMarket, calculateSimilarity m1 m2 = calculateSimilarity m2 m1) := by
  constructor
  · intro m hm
    unfold calculateSimilarity
    rw [calculateLevenshteinSimilarity_self, calculateJaroWinklerSimilarity_self,
        calculateTokenOverlap_self m.tokens hm, calculateDateSimilarity_self]
    norm_num
  · intro m1 m2
    exact (calculateSimilarity_comm m1 m2).symm

open Match in
/-- Witness for C9 amended: a market with one token has self-similarity
1, and a concrete swapped pair agrees. -/
theorem C9_similarity_reflexive_and_symmetric_witness :
    marketO.tokens ≠ [] ∧ calculateSimilarity marketO marketO = 1 :=
  ⟨by simp [marketO], C9_similarity_reflexive_and_symmetric.1 marketO (by simp [marketO])⟩
